import Mathlib

/-!
# dosa: null-safe int64 codec and in-memory connector

A shallow embedding of `null_int64.go` and `connectors/memory/memory.go`,
together with the parts of the Go standard library (`strconv`,
`encoding/json`) that these files call.

Conventions
* A Go byte is a natural number; the bytes are the naturals below 256.  Every
  function below is total on all naturals, so a statement proved for every
  `List Nat` holds for every byte string.
* An `int64` is an integer `x` with `-2^63 ≤ x < 2^63` (`IsInt64 x`).
* A Go `error` result is an `Option Error`; `none` is the nil error.
-/

namespace Dosa

/-- The error values that the embedded code can return. -/
inductive Error
  /-- The package-level `ErrNullValue`. -/
  | ErrNullValue
  /-- A `*strconv.NumError` wrapping `strconv.ErrSyntax`. -/
  | numSyntax
  /-- A `*strconv.NumError` wrapping `strconv.ErrRange`. -/
  | numRange
  /-- A `*json.SyntaxError` reported by the JSON scanner. -/
  | jsonSyntax
  /-- A `*json.UnmarshalTypeError` reported by the JSON decoder. -/
  | jsonUnmarshalType
  /-- The error of `fmt.Errorf("failed to unmarshal %T into NullInt64", unknown)`. -/
  | wrongKind
  /-- The error of `errors.New("invalid entity info")`. -/
  | invalidEntityInfo
  /-- The error of `errors.New("not implemented")`. -/
  | notImplemented
  deriving DecidableEq, Repr

/-- The range of Go's `int64`. -/
def IsInt64 (x : Int) : Prop := -(2 : Int) ^ 63 ≤ x ∧ x < (2 : Int) ^ 63

instance (x : Int) : Decidable (IsInt64 x) := by
  unfold IsInt64; exact inferInstance

/-! ## strconv -/

/-- The digit loop of `strconv.formatBits` for base 10: the digits of `u`
are pushed in front of `acc`, least significant first (the source writes two
digits per round from a table, which gives the same digits).  The loop runs
while `u >= 10`; a `uint64` has at most 20 digits, so 20 rounds of fuel are
enough for every `u < 2^64`. -/
def formatBitsLoop : Nat → Nat → List Nat → List Nat
  | 0, _, acc => acc
  | fuel + 1, u, acc =>
    if u ≥ 10 then formatBitsLoop fuel (u / 10) ((48 + u % 10) :: acc)
    else (48 + u) :: acc

/-- Embeds `strconv.FormatInt(i, 10)`: the magnitude `uint64(i)` (negated when
`i < 0`) is written in decimal, with a leading `-` when `i < 0`. -/
def FormatInt (i : Int) : List Nat :=
  if i < 0 then 45 :: formatBitsLoop 20 (i.natAbs % 2 ^ 64) []
  else formatBitsLoop 20 (i.natAbs % 2 ^ 64) []

/-- Embeds `strconv.lower`: `c | ('x' - 'X')`. -/
def lower (c : Nat) : Nat := c ||| 32

/-- The loop of `strconv.ParseUint(s, 10, 64)` over the bytes of `s`, with
the running value `n`.  It returns the value and the error of `ParseUint`:
`0` with a syntax error at a byte that is not a decimal digit, `maxVal` with
a range error when the value leaves `uint64`. -/
def parseUintLoop : List Nat → Nat → Nat × Option Error
  | [], n => (n, none)
  | c :: cs, n =>
    if 48 ≤ c ∧ c ≤ 57 then
      let d := c - 48
      if d ≥ 10 then (0, some Error.numSyntax)
      else if n ≥ (2 ^ 64 - 1) / 10 + 1 then (2 ^ 64 - 1, some Error.numRange)
      else
        let n10 := (n * 10) % 2 ^ 64
        let n1 := (n10 + d) % 2 ^ 64
        if n1 < n10 ∨ n1 > 2 ^ 64 - 1 then (2 ^ 64 - 1, some Error.numRange)
        else parseUintLoop cs n1
    else if 97 ≤ lower c ∧ lower c ≤ 122 then
      let d := lower c - 97 + 10
      if d ≥ 10 then (0, some Error.numSyntax)
      else if n ≥ (2 ^ 64 - 1) / 10 + 1 then (2 ^ 64 - 1, some Error.numRange)
      else
        let n10 := (n * 10) % 2 ^ 64
        let n1 := (n10 + d) % 2 ^ 64
        if n1 < n10 ∨ n1 > 2 ^ 64 - 1 then (2 ^ 64 - 1, some Error.numRange)
        else parseUintLoop cs n1
    else (0, some Error.numSyntax)

/-- Embeds `strconv.ParseUint(s, 10, 64)`. -/
def ParseUint (s : List Nat) : Nat × Option Error :=
  if s = [] then (0, some Error.numSyntax) else parseUintLoop s 0

/-- The part of `strconv.ParseInt(s, 10, 64)` after the sign has been picked
off: `ParseUint` on the rest, then the range check against `1 << 63`. -/
def parseIntSigned (neg : Bool) (s : List Nat) : Int × Option Error :=
  match ParseUint s with
  | (_, some Error.numSyntax) => (0, some Error.numSyntax)
  | (un, _) =>
    if neg = false ∧ un ≥ 2 ^ 63 then ((2 : Int) ^ 63 - 1, some Error.numRange)
    else if neg = true ∧ un > 2 ^ 63 then (-(2 : Int) ^ 63, some Error.numRange)
    else if neg then (-(un : Int), none) else ((un : Int), none)

/-- Embeds `strconv.ParseInt(s, 10, 64)`: the value and the error. -/
def ParseInt (s : List Nat) : Int × Option Error :=
  match s with
  | [] => (0, some Error.numSyntax)
  | c :: rest =>
    if c = 43 then parseIntSigned false rest
    else if c = 45 then parseIntSigned true rest
    else parseIntSigned false (c :: rest)

/-! ## NullInt64 -/

/-- Embeds `NullInt64`, the embedded `sql.NullInt64`: a value and a validity flag. -/
structure NullInt64 where
  Int64 : Int
  Valid : Bool
  deriving DecidableEq, Repr

/-- Embeds `NewNullInt64(value)`. -/
def NewNullInt64 (value : Int) : NullInt64 := { Int64 := value, Valid := true }

/-- Embeds `(*NullInt64).Set(v)`. -/
def NullInt64.Set (_i : NullInt64) (v : Int) : NullInt64 :=
  { Int64 := v, Valid := true }

/-- Embeds `(*NullInt64).Nullify()`. -/
def NullInt64.Nullify (i : NullInt64) : NullInt64 := { i with Valid := false }

/-- Embeds `NullInt64.Get()`. -/
def NullInt64.Get (i : NullInt64) : Int × Option Error :=
  if !i.Valid then (0, some Error.ErrNullValue) else (i.Int64, none)

/-- Embeds `NullInt64.MarshalText()`. -/
def NullInt64.MarshalText (i : NullInt64) : List Nat × Option Error :=
  if !i.Valid then ([], none) else (FormatInt i.Int64, none)

/-- The bytes of the text `null`. -/
def nullBytes : List Nat := [110, 117, 108, 108]

/-- Embeds `(*NullInt64).UnmarshalText(data)`: the receiver after the call and the
returned error. -/
def NullInt64.UnmarshalText (i : NullInt64) (data : List Nat) : NullInt64 × Option Error :=
  if data = [] ∨ data = nullBytes then ({ i with Valid := false }, none)
  else
    let r := ParseInt data
    ({ Int64 := r.1, Valid := r.2.isNone }, r.2)

/-! ## encoding/json: the scanner (`scanner.go`) -/

/-- The opcodes returned by the scanner's step functions. -/
inductive Op
  | scanContinue | scanBeginLiteral | scanBeginObject | scanObjectKey | scanObjectValue
  | scanEndObject | scanBeginArray | scanArrayValue | scanEndArray | scanSkipSpace
  | scanEnd | scanError
  deriving DecidableEq, Repr

/-- The entries of the scanner's parse-state stack. -/
inductive ParseState
  | parseObjectKey | parseObjectValue | parseArrayValue
  deriving DecidableEq, Repr

/-- The step functions of the scanner, the possible values of `scanner.step`. -/
inductive Step
  | stateBeginValueOrEmpty | stateBeginValue | stateBeginStringOrEmpty | stateBeginString
  | stateEndValue | stateEndTop
  | stateInString | stateInStringEsc | stateInStringEscU | stateInStringEscU1
  | stateInStringEscU12 | stateInStringEscU123
  | stateNeg | state1 | state0 | stateDot | stateDot0 | stateE | stateESign | stateE0
  | stateT | stateTr | stateTru | stateF | stateFa | stateFal | stateFals
  | stateN | stateNu | stateNul | stateError
  deriving DecidableEq, Repr

/-- The JSON scanner: the next step function, whether the top-level value has
ended, the parse-state stack (its top is the head of the list) and whether an
error has been recorded (`s.err != nil`). -/
structure scanner where
  step : Step
  endTop : Bool
  parseState : List ParseState
  err : Bool
  deriving DecidableEq, Repr

/-- The limit `maxNestingDepth` on the depth of the parse-state stack. -/
def maxNestingDepth : Nat := 10000

/-- Embeds `scanner.reset`. -/
def scanner.reset : scanner :=
  { step := Step.stateBeginValue, endTop := false, parseState := [], err := false }

/-- Embeds `scanner.error`: records the error and moves to `stateError`. -/
def scanner.error (s : scanner) : scanner × Op :=
  ({ s with step := Step.stateError, err := true }, Op.scanError)

/-- Embeds `isSpace`. -/
def isSpace (c : Nat) : Bool :=
  decide (c ≤ 32) && (decide (c = 32) || decide (c = 9) || decide (c = 13) || decide (c = 10))

/-- Embeds `scanner.pushParseState`. -/
def scanner.pushParseState (s : scanner) (newParseState : ParseState) (successState : Op) :
    scanner × Op :=
  let s1 := { s with parseState := newParseState :: s.parseState }
  if s1.parseState.length ≤ maxNestingDepth then (s1, successState) else s1.error

/-- Embeds `scanner.popParseState`. -/
def scanner.popParseState (s : scanner) : scanner :=
  let rest := s.parseState.tail
  if rest.length = 0 then { s with parseState := rest, step := Step.stateEndTop, endTop := true }
  else { s with parseState := rest, step := Step.stateEndValue }

/-- Embeds `stateError`. -/
def stateError (s : scanner) (_c : Nat) : scanner × Op := (s, Op.scanError)

/-- Embeds `stateEndTop`: a non-space byte after the top-level value records an
error, which the next call reports; the opcode is `scanEnd` either way. -/
def stateEndTop (s : scanner) (c : Nat) : scanner × Op :=
  if !isSpace c then (s.error.1, Op.scanEnd) else (s, Op.scanEnd)

/-- Embeds `stateEndValue`. -/
def stateEndValue (s : scanner) (c : Nat) : scanner × Op :=
  match s.parseState with
  | [] => stateEndTop { s with step := Step.stateEndTop, endTop := true } c
  | ps :: rest =>
    if isSpace c then ({ s with step := Step.stateEndValue }, Op.scanSkipSpace)
    else
      match ps with
      | ParseState.parseObjectKey =>
        if c = 58 then
          ({ s with parseState := ParseState.parseObjectValue :: rest,
                    step := Step.stateBeginValue }, Op.scanObjectKey)
        else s.error
      | ParseState.parseObjectValue =>
        if c = 44 then
          ({ s with parseState := ParseState.parseObjectKey :: rest,
                    step := Step.stateBeginString }, Op.scanObjectValue)
        else if c = 125 then (s.popParseState, Op.scanEndObject)
        else s.error
      | ParseState.parseArrayValue =>
        if c = 44 then ({ s with step := Step.stateBeginValue }, Op.scanArrayValue)
        else if c = 93 then (s.popParseState, Op.scanEndArray)
        else s.error

/-- Embeds `stateBeginValue`. -/
def stateBeginValue (s : scanner) (c : Nat) : scanner × Op :=
  if isSpace c then (s, Op.scanSkipSpace)
  else if c = 123 then
    scanner.pushParseState { s with step := Step.stateBeginStringOrEmpty }
      ParseState.parseObjectKey Op.scanBeginObject
  else if c = 91 then
    scanner.pushParseState { s with step := Step.stateBeginValueOrEmpty }
      ParseState.parseArrayValue Op.scanBeginArray
  else if c = 34 then ({ s with step := Step.stateInString }, Op.scanBeginLiteral)
  else if c = 45 then ({ s with step := Step.stateNeg }, Op.scanBeginLiteral)
  else if c = 48 then ({ s with step := Step.state0 }, Op.scanBeginLiteral)
  else if c = 116 then ({ s with step := Step.stateT }, Op.scanBeginLiteral)
  else if c = 102 then ({ s with step := Step.stateF }, Op.scanBeginLiteral)
  else if c = 110 then ({ s with step := Step.stateN }, Op.scanBeginLiteral)
  else if 49 ≤ c ∧ c ≤ 57 then ({ s with step := Step.state1 }, Op.scanBeginLiteral)
  else s.error

/-- Embeds `stateBeginValueOrEmpty`. -/
def stateBeginValueOrEmpty (s : scanner) (c : Nat) : scanner × Op :=
  if isSpace c then (s, Op.scanSkipSpace)
  else if c = 93 then stateEndValue s c
  else stateBeginValue s c

/-- Embeds `stateBeginString`. -/
def stateBeginString (s : scanner) (c : Nat) : scanner × Op :=
  if isSpace c then (s, Op.scanSkipSpace)
  else if c = 34 then ({ s with step := Step.stateInString }, Op.scanBeginLiteral)
  else s.error

/-- Embeds `stateBeginStringOrEmpty`: on `}` the top of the stack is overwritten
with `parseObjectValue` (the stack is never empty in this state). -/
def stateBeginStringOrEmpty (s : scanner) (c : Nat) : scanner × Op :=
  if isSpace c then (s, Op.scanSkipSpace)
  else if c = 125 then
    stateEndValue { s with parseState := ParseState.parseObjectValue :: s.parseState.tail } c
  else stateBeginString s c

/-- Embeds `stateInString`. -/
def stateInString (s : scanner) (c : Nat) : scanner × Op :=
  if c = 34 then ({ s with step := Step.stateEndValue }, Op.scanContinue)
  else if c = 92 then ({ s with step := Step.stateInStringEsc }, Op.scanContinue)
  else if c < 32 then s.error
  else (s, Op.scanContinue)

/-- Embeds `stateInStringEsc`. -/
def stateInStringEsc (s : scanner) (c : Nat) : scanner × Op :=
  if c = 98 ∨ c = 102 ∨ c = 110 ∨ c = 114 ∨ c = 116 ∨ c = 92 ∨ c = 47 ∨ c = 34 then
    ({ s with step := Step.stateInString }, Op.scanContinue)
  else if c = 117 then ({ s with step := Step.stateInStringEscU }, Op.scanContinue)
  else s.error

/-- The test for a hexadecimal digit in the `\u` escape states. -/
def isHex (c : Nat) : Bool :=
  (decide (48 ≤ c) && decide (c ≤ 57)) || (decide (97 ≤ c) && decide (c ≤ 102)) ||
    (decide (65 ≤ c) && decide (c ≤ 70))

/-- Embeds `stateInStringEscU`. -/
def stateInStringEscU (s : scanner) (c : Nat) : scanner × Op :=
  if isHex c then ({ s with step := Step.stateInStringEscU1 }, Op.scanContinue) else s.error

/-- Embeds `stateInStringEscU1`. -/
def stateInStringEscU1 (s : scanner) (c : Nat) : scanner × Op :=
  if isHex c then ({ s with step := Step.stateInStringEscU12 }, Op.scanContinue) else s.error

/-- Embeds `stateInStringEscU12`. -/
def stateInStringEscU12 (s : scanner) (c : Nat) : scanner × Op :=
  if isHex c then ({ s with step := Step.stateInStringEscU123 }, Op.scanContinue) else s.error

/-- Embeds `stateInStringEscU123`. -/
def stateInStringEscU123 (s : scanner) (c : Nat) : scanner × Op :=
  if isHex c then ({ s with step := Step.stateInString }, Op.scanContinue) else s.error

/-- Embeds `stateNeg`. -/
def stateNeg (s : scanner) (c : Nat) : scanner × Op :=
  if c = 48 then ({ s with step := Step.state0 }, Op.scanContinue)
  else if 49 ≤ c ∧ c ≤ 57 then ({ s with step := Step.state1 }, Op.scanContinue)
  else s.error

/-- Embeds `state0`. -/
def state0 (s : scanner) (c : Nat) : scanner × Op :=
  if c = 46 then ({ s with step := Step.stateDot }, Op.scanContinue)
  else if c = 101 ∨ c = 69 then ({ s with step := Step.stateE }, Op.scanContinue)
  else stateEndValue s c

/-- Embeds `state1`. -/
def state1 (s : scanner) (c : Nat) : scanner × Op :=
  if 48 ≤ c ∧ c ≤ 57 then ({ s with step := Step.state1 }, Op.scanContinue)
  else state0 s c

/-- Embeds `stateDot`. -/
def stateDot (s : scanner) (c : Nat) : scanner × Op :=
  if 48 ≤ c ∧ c ≤ 57 then ({ s with step := Step.stateDot0 }, Op.scanContinue)
  else s.error

/-- Embeds `stateDot0`. -/
def stateDot0 (s : scanner) (c : Nat) : scanner × Op :=
  if 48 ≤ c ∧ c ≤ 57 then (s, Op.scanContinue)
  else if c = 101 ∨ c = 69 then ({ s with step := Step.stateE }, Op.scanContinue)
  else stateEndValue s c

/-- Embeds `stateESign`. -/
def stateESign (s : scanner) (c : Nat) : scanner × Op :=
  if 48 ≤ c ∧ c ≤ 57 then ({ s with step := Step.stateE0 }, Op.scanContinue)
  else s.error

/-- Embeds `stateE`. -/
def stateE (s : scanner) (c : Nat) : scanner × Op :=
  if c = 43 ∨ c = 45 then ({ s with step := Step.stateESign }, Op.scanContinue)
  else stateESign s c

/-- Embeds `stateE0`. -/
def stateE0 (s : scanner) (c : Nat) : scanner × Op :=
  if 48 ≤ c ∧ c ≤ 57 then (s, Op.scanContinue)
  else stateEndValue s c

/-- The states of the literals `true`, `false` and `null`: the byte `want`
moves to the step `next`, any other byte is an error. -/
def stateLit (want : Nat) (next : Step) (s : scanner) (c : Nat) : scanner × Op :=
  if c = want then ({ s with step := next }, Op.scanContinue) else s.error

/-- The call `s.step(s, c)`. -/
def scanner.call (s : scanner) (c : Nat) : scanner × Op :=
  match s.step with
  | Step.stateBeginValueOrEmpty => stateBeginValueOrEmpty s c
  | Step.stateBeginValue => stateBeginValue s c
  | Step.stateBeginStringOrEmpty => stateBeginStringOrEmpty s c
  | Step.stateBeginString => stateBeginString s c
  | Step.stateEndValue => stateEndValue s c
  | Step.stateEndTop => stateEndTop s c
  | Step.stateInString => stateInString s c
  | Step.stateInStringEsc => stateInStringEsc s c
  | Step.stateInStringEscU => stateInStringEscU s c
  | Step.stateInStringEscU1 => stateInStringEscU1 s c
  | Step.stateInStringEscU12 => stateInStringEscU12 s c
  | Step.stateInStringEscU123 => stateInStringEscU123 s c
  | Step.stateNeg => stateNeg s c
  | Step.state1 => state1 s c
  | Step.state0 => state0 s c
  | Step.stateDot => stateDot s c
  | Step.stateDot0 => stateDot0 s c
  | Step.stateE => stateE s c
  | Step.stateESign => stateESign s c
  | Step.stateE0 => stateE0 s c
  | Step.stateT => stateLit 114 Step.stateTr s c
  | Step.stateTr => stateLit 117 Step.stateTru s c
  | Step.stateTru => stateLit 101 Step.stateEndValue s c
  | Step.stateF => stateLit 97 Step.stateFa s c
  | Step.stateFa => stateLit 108 Step.stateFal s c
  | Step.stateFal => stateLit 115 Step.stateFals s c
  | Step.stateFals => stateLit 101 Step.stateEndValue s c
  | Step.stateN => stateLit 117 Step.stateNu s c
  | Step.stateNu => stateLit 108 Step.stateNul s c
  | Step.stateNul => stateLit 108 Step.stateEndValue s c
  | Step.stateError => stateError s c

/-- Embeds `scanner.eof`: the opcode returned at the end of the input. -/
def scanner.eof (s : scanner) : Op :=
  if s.err then Op.scanError
  else if s.endTop then Op.scanEnd
  else if (s.call 32).1.endTop then Op.scanEnd
  else Op.scanError

/-- The loop of `checkValid` over the bytes of the input: `none` as soon as
a step returns `scanError`, otherwise the scanner after the last byte. -/
def checkValidLoop : List Nat → scanner → Option scanner
  | [], s => some s
  | c :: cs, s =>
    if (s.call c).2 = Op.scanError then none else checkValidLoop cs (s.call c).1

/-- Embeds `checkValid(data, scan)`: `true` when the returned error is nil, that is
when `data` is syntactically valid JSON. -/
def checkValid (data : List Nat) : Bool :=
  match checkValidLoop data scanner.reset with
  | none => false
  | some s => decide (s.eof ≠ Op.scanError)

/-- Whether `checkValid` accepts the rest `data` of the input when the
scanner is in the state `s`. -/
def acceptsFrom (s : scanner) (data : List Nat) : Bool :=
  match checkValidLoop data s with
  | none => false
  | some s' => decide (s'.eof ≠ Op.scanError)

/-! ## strconv.ParseFloat, as far as its error is concerned -/

/-- The mantissa loop of `strconv.readFloat`: digits with at most one decimal
point.  It returns the digits read as one natural number, the number of
digits after the point, whether a digit was seen, and the unread rest. -/
def readMantissa : List Nat → Bool → Nat → Nat → Bool → Nat × Nat × Bool × List Nat
  | [], _, mant, nfrac, sawdigits => (mant, nfrac, sawdigits, [])
  | c :: cs, sawdot, mant, nfrac, sawdigits =>
    if c = 46 then
      if sawdot then (mant, nfrac, sawdigits, c :: cs)
      else readMantissa cs true mant nfrac sawdigits
    else if 48 ≤ c ∧ c ≤ 57 then
      readMantissa cs sawdot (mant * 10 + (c - 48)) (if sawdot then nfrac + 1 else nfrac) true
    else (mant, nfrac, sawdigits, c :: cs)

/-- The exponent digit loop of `readFloat`; the exponent stops growing once
it has reached 10000 (`if e < 10000`). -/
def readExpDigits : List Nat → Nat → Nat × List Nat
  | [], e => (e, [])
  | c :: cs, e =>
    if 48 ≤ c ∧ c ≤ 57 then readExpDigits cs (if e < 10000 then e * 10 + (c - 48) else e)
    else (e, c :: cs)

/-- The optional exponent of `readFloat`: `none` for a syntax error,
otherwise the signed exponent and the unread rest. -/
def readExponent (s : List Nat) : Option (Int × List Nat) :=
  match s with
  | [] => some (0, [])
  | c :: cs =>
    if lower c = 101 then
      match cs with
      | [] => none
      | d :: ds =>
        let signed : Int × List Nat :=
          if d = 43 then (1, ds) else if d = 45 then (-1, ds) else (1, d :: ds)
        match signed.2 with
        | [] => none
        | b :: _ =>
          if 48 ≤ b ∧ b ≤ 57 then
            some (signed.1 * ((readExpDigits signed.2 0).1 : Int), (readExpDigits signed.2 0).2)
          else none
    else some (0, c :: cs)

/-- The least magnitude that rounds beyond the largest `float64`, half an
ulp above `math.MaxFloat64 = 2^1024 - 2^971`. -/
def float64Limit : Nat := 2 ^ 1024 - 2 ^ 970

/-- Whether the decimal number `mant * 10 ^ exp10` rounds beyond the largest
`float64`: `ParseFloat` rounds to nearest, ties to even, so this happens
exactly from `float64Limit` on. -/
def floatOverflows (mant : Nat) (exp10 : Int) : Bool :=
  if 0 ≤ exp10 then decide (mant * 10 ^ exp10.toNat ≥ float64Limit)
  else decide (mant ≥ float64Limit * 10 ^ (-exp10).toNat)

/-- Whether `strconv.ParseFloat(s, 64)` returns a non-nil error on a decimal
literal `s`: a syntax error when `s` is not a decimal floating-point literal,
a range error when the number that `readFloat` has read (with its exponent,
which stops growing at 10000) rounds beyond the largest `float64`.  The
decoder calls it on JSON number literals only, so the special forms of
`ParseFloat` (infinities, NaN, hexadecimal, underscores) are left out. -/
def parseFloatErr (s : List Nat) : Bool :=
  let body : List Nat :=
    match s with
    | [] => []
    | c :: cs => if c = 43 ∨ c = 45 then cs else c :: cs
  let m := readMantissa body false 0 0 false
  if !m.2.2.1 then true
  else
    match readExponent m.2.2.2 with
    | none => true
    | some (e, rest) =>
      if rest ≠ [] then true else floatOverflows m.1 (e - (m.2.1 : Int))

/-! ## encoding/json: the decoder (`decode.go`) -/

/-- The bytes that `decodeState.rescanLiteral` takes as part of a number
literal: the digits and `.`, `e`, `E`, `+`, `-`. -/
def isNumChar (c : Nat) : Bool :=
  (decide (48 ≤ c) && decide (c ≤ 57)) || decide (c = 46) || decide (c = 101) ||
    decide (c = 69) || decide (c = 43) || decide (c = 45)

/-- Where the decoder is while it walks over a valid document. -/
inductive LexMode
  | outside | inString | inStringEsc | inNumber
  deriving DecidableEq, Repr

/-- The number literals that the decoder meets when it decodes a valid
document into an `interface{}`, in order.  As in `rescanLiteral`, a string
runs to its closing quote (a backslash skips the next byte) and a number,
begun by `-` or a digit outside a string, is the longest run of number
bytes.  `cur` holds the bytes of the number being read, last byte first. -/
def numberTokensAux : List Nat → LexMode → List Nat → List (List Nat)
  | [], LexMode.inNumber, cur => [cur.reverse]
  | [], _, _ => []
  | c :: cs, LexMode.outside, _ =>
    if c = 34 then numberTokensAux cs LexMode.inString []
    else if c = 45 ∨ (48 ≤ c ∧ c ≤ 57) then numberTokensAux cs LexMode.inNumber [c]
    else numberTokensAux cs LexMode.outside []
  | c :: cs, LexMode.inString, _ =>
    if c = 92 then numberTokensAux cs LexMode.inStringEsc []
    else if c = 34 then numberTokensAux cs LexMode.outside []
    else numberTokensAux cs LexMode.inString []
  | _ :: cs, LexMode.inStringEsc, _ => numberTokensAux cs LexMode.inString []
  | c :: cs, LexMode.inNumber, cur =>
    if isNumChar c then numberTokensAux cs LexMode.inNumber (c :: cur)
    else if c = 34 then cur.reverse :: numberTokensAux cs LexMode.inString []
    else cur.reverse :: numberTokensAux cs LexMode.outside []

/-- The number literals of a document. -/
def numberTokens (data : List Nat) : List (List Nat) :=
  numberTokensAux data LexMode.outside []

/-- The dynamic type of the value that `json.Unmarshal` stores into an
`interface{}`: `nil`, `bool`, `float64`, `string`, `[]interface{}` or
`map[string]interface{}`. -/
inductive Kind
  | null | bool | float64 | string | array | object
  deriving DecidableEq, Repr

/-- The kind of a value, decided by its first byte as in `decodeState.value`
and `literalStore`. -/
def kindOfByte (c : Nat) : Kind :=
  if c = 123 then Kind.object
  else if c = 91 then Kind.array
  else if c = 110 then Kind.null
  else if c = 116 ∨ c = 102 then Kind.bool
  else if c = 34 then Kind.string
  else Kind.float64

/-- Embeds `json.Unmarshal(data, &unknown)` with `unknown` of type `interface{}`:
a syntax error when `checkValid` fails; otherwise the document is decoded,
every number through `convertNumber`, that is `strconv.ParseFloat(s, 64)`,
whose error is saved and returned as an `UnmarshalTypeError`; otherwise the
kind of the stored value. -/
def unmarshalInterface (data : List Nat) : Except Error Kind :=
  if !checkValid data then Except.error Error.jsonSyntax
  else
    match data.dropWhile isSpace with
    | [] => Except.error Error.jsonSyntax
    | c :: _ =>
      if (numberTokens data).any parseFloatErr then Except.error Error.jsonUnmarshalType
      else Except.ok (kindOfByte c)

/-- Embeds `json.Unmarshal(data, &i.Int64)` with the current value `cur` of the
`int64`: the new value and the error.  A number literal goes through
`strconv.ParseInt(item, 10, 64)`, whose failure is an `UnmarshalTypeError`
that leaves the value as it was; `null` leaves it as it was without error;
every other kind of value is an `UnmarshalTypeError`. -/
def unmarshalInt64 (data : List Nat) (cur : Int) : Int × Option Error :=
  if !checkValid data then (cur, some Error.jsonSyntax)
  else
    match data.dropWhile isSpace with
    | [] => (cur, some Error.jsonSyntax)
    | c :: rest =>
      match kindOfByte c with
      | Kind.null => (cur, none)
      | Kind.float64 =>
        if (ParseInt (c :: rest.takeWhile isNumChar)).2.isSome then
          (cur, some Error.jsonUnmarshalType)
        else ((ParseInt (c :: rest.takeWhile isNumChar)).1, none)
      | _ => (cur, some Error.jsonUnmarshalType)

/-- Embeds `NullInt64.MarshalJSON()`. -/
def NullInt64.MarshalJSON (i : NullInt64) : List Nat × Option Error :=
  if !i.Valid then (nullBytes, none) else (FormatInt i.Int64, none)

/-- Embeds `(*NullInt64).UnmarshalJSON(data)`: the receiver after the call and the
returned error. -/
def NullInt64.UnmarshalJSON (i : NullInt64) (data : List Nat) : NullInt64 × Option Error :=
  match unmarshalInterface data with
  | Except.error e => (i, some e)
  | Except.ok Kind.float64 =>
    ({ Int64 := (unmarshalInt64 data i.Int64).1, Valid := (unmarshalInt64 data i.Int64).2.isNone },
      (unmarshalInt64 data i.Int64).2)
  | Except.ok Kind.null => ({ i with Valid := false }, none)
  | Except.ok _ => ({ i with Valid := false }, some Error.wrongKind)

/-! ## The in-memory connector (`connectors/memory/memory.go`) -/

/-- Embeds `dosa.SchemaRef`. -/
structure SchemaRef where
  Scope : String
  NamePrefix : String
  EntityName : String
  deriving DecidableEq, Repr

/-- Embeds `dosa.EntityInfo`, as far as the connector reads it: the `Ref` pointer,
`none` when it is nil. -/
structure EntityInfo where
  Ref : Option SchemaRef
  deriving DecidableEq, Repr

/-- Embeds `memory.Connector`: the index `idx` from entity names to row sequences,
`none` for a name that is not a key of the map.  `Row` stands for
`map[string]dosa.FieldValue`.  The index is the map that `NewConnector`
makes, so it is never the nil map. -/
structure Connector (Row : Type) where
  idx : String → Option (List Row)

/-- Embeds `NewConnector()`. -/
def NewConnector (Row : Type) : Connector Row := { idx := fun _ => none }

/-- The assignment `c.idx[name] = rows`. -/
def Connector.store {Row : Type} (c : Connector Row) (name : String) (rows : List Row) :
    Connector Row :=
  { idx := fun k => if k = name then some rows else c.idx k }

/-- Embeds `(*Connector).CreateIfNotExists(ctx, ei, values)`: the connector after
the call and the returned error. -/
def Connector.CreateIfNotExists {Row : Type} (c : Connector Row) (ei : EntityInfo)
    (values : Row) : Connector Row × Option Error :=
  match ei.Ref with
  | none => (c, some Error.invalidEntityInfo)
  | some ref =>
    if ref.EntityName = "" then (c, some Error.invalidEntityInfo)
    else
      match c.idx ref.EntityName with
      | none => (((c.store ref.EntityName [values]).store ref.EntityName ([] ++ [values])), none)
      | some v => (c.store ref.EntityName (v ++ [values]), none)

/-- How a call ends: it returns its results, or it panics (here: the run-time
error of an index out of range). -/
inductive Outcome (α : Type)
  | returned (a : α)
  | panicked

/-- The constant `version` of the package. -/
def version : Int := 1

/-- The constant `status` of the package. -/
def status : String := "APPLIED"

/-- Embeds `dosa.SchemaStatus`. -/
structure SchemaStatus where
  Version : Int
  Status : String
  deriving DecidableEq, Repr

/-- Embeds `dosa.FieldValuesOrError`: the values, `none` for the nil map, and the
error. -/
structure FieldValuesOrError (Row : Type) where
  Values : Option Row
  Error : Option Error

/-- Embeds `(*Connector).Read(ctx, ei, keys, fieldsToRead)`: the connector after
the call and how the call ends, with the returned row (`none` for the nil
map of the error path) and the returned error.  The expression
`c.idx[name][0]` panics when the name has no row. -/
def Connector.Read {Row : Type} (c : Connector Row) (ei : EntityInfo) (_keys : Row)
    (_fieldsToRead : List String) : Connector Row × Outcome (Option Row × Option Error) :=
  match ei.Ref with
  | none => (c, Outcome.returned (none, some Error.invalidEntityInfo))
  | some ref =>
    if ref.EntityName = "" then (c, Outcome.returned (none, some Error.invalidEntityInfo))
    else
      match c.idx ref.EntityName with
      | some (row :: _) => (c, Outcome.returned (some row, none))
      | _ => (c, Outcome.panicked)

/-- Embeds `(*Connector).MultiRead(ctx, ei, keys, fieldsToRead)`: the connector
after the call, the returned slice `make([]*dosa.FieldValuesOrError, 1)` (one
nil pointer) and the returned error. -/
def Connector.MultiRead {Row : Type} (c : Connector Row) (_ei : EntityInfo)
    (_keys : List Row) (_fieldsToRead : List String) :
    Connector Row × Option (List (Option (FieldValuesOrError Row))) × Option Error :=
  (c, some [none], some Error.notImplemented)

/-- Embeds `(*Connector).Upsert(ctx, ei, values)`. -/
def Connector.Upsert {Row : Type} (c : Connector Row) (_ei : EntityInfo) (_values : Row) :
    Connector Row × Option Error :=
  (c, some Error.notImplemented)

/-- Embeds `(*Connector).MultiUpsert(ctx, ei, multiValues)`: the connector after
the call, the returned slice of errors and the returned error. -/
def Connector.MultiUpsert {Row : Type} (c : Connector Row) (_ei : EntityInfo)
    (_multiValues : List Row) : Connector Row × Option (List (Option Error)) × Option Error :=
  (c, some [some Error.notImplemented], some Error.notImplemented)

/-- Embeds `(*Connector).Remove(ctx, ei, keys)`. -/
def Connector.Remove {Row : Type} (c : Connector Row) (_ei : EntityInfo) (_keys : Row) :
    Connector Row × Option Error :=
  (c, some Error.notImplemented)

/-- Embeds `(*Connector).MultiRemove(ctx, ei, multiKeys)`. -/
def Connector.MultiRemove {Row : Type} (c : Connector Row) (_ei : EntityInfo)
    (_multiKeys : List Row) : Connector Row × Option (List (Option Error)) × Option Error :=
  (c, some [some Error.notImplemented], some Error.notImplemented)

/-- Embeds `(*Connector).Range(ctx, ei, columnConditions, fieldsToRead, token,
limit)`: the connector after the call, the returned rows (`none` for the nil
slice), the returned token and the returned error. -/
def Connector.Range {Row Cond : Type} (c : Connector Row) (_ei : EntityInfo)
    (_columnConditions : Cond) (_fieldsToRead : List String) (_token : String) (_limit : Int) :
    Connector Row × Option (List Row) × String × Option Error :=
  (c, none, "", some Error.notImplemented)

/-- Embeds `(*Connector).Search(ctx, ei, fieldPairs, fieldsToRead, token, limit)`. -/
def Connector.Search {Row Pair : Type} (c : Connector Row) (_ei : EntityInfo)
    (_fieldPairs : Pair) (_fieldsToRead : List String) (_token : String) (_limit : Int) :
    Connector Row × Option (List Row) × String × Option Error :=
  (c, none, "", some Error.notImplemented)

/-- Embeds `(*Connector).Scan(ctx, ei, fieldsToRead, token, limit)`. -/
def Connector.Scan {Row : Type} (c : Connector Row) (_ei : EntityInfo)
    (_fieldsToRead : List String) (_token : String) (_limit : Int) :
    Connector Row × Option (List Row) × String × Option Error :=
  (c, none, "", some Error.notImplemented)

/-- Embeds `(*Connector).CheckSchema(ctx, scope, namePrefix, ed)`. -/
def Connector.CheckSchema {Row Def : Type} (_c : Connector Row) (_scope _namePrefix : String)
    (_ed : List Def) : Int × Option Error :=
  (version, none)

/-- Embeds `(*Connector).UpsertSchema(ctx, scope, namePrefix, ed)`. -/
def Connector.UpsertSchema {Row Def : Type} (_c : Connector Row) (_scope _namePrefix : String)
    (_ed : List Def) : Option SchemaStatus × Option Error :=
  (some { Status := status, Version := version }, none)

/-- Embeds `(*Connector).CheckSchemaStatus(ctx, scope, namePrefix, version)`: in
the body, `version` is the parameter of that name, which hides the constant
of the package. -/
def Connector.CheckSchemaStatus {Row : Type} (_c : Connector Row) (_scope _namePrefix : String)
    (version : Int) : Option SchemaStatus × Option Error :=
  (some { Status := status, Version := version }, none)

/-- Embeds `(*Connector).Shutdown()`. -/
def Connector.Shutdown {Row : Type} (c : Connector Row) : Connector Row × Option Error :=
  (c, none)

/-- A run of `CreateIfNotExists` calls, one for each entity info and row of
the list, in order. -/
def Connector.createAll {Row : Type} (c : Connector Row) : List (EntityInfo × Row) → Connector Row
  | [] => c
  | call :: rest => Connector.createAll (c.CreateIfNotExists call.1 call.2).1 rest

/-! ### The fixtures of `memory_test.go` -/

/-- A row with integer field values, for the examples. -/
abbrev TestRow : Type := List (String × Int)

/-- The fixture `testInfo`. -/
def testInfo : EntityInfo :=
  { Ref := some { Scope := "testScope", NamePrefix := "testPrefix", EntityName := "testEntityName" } }

/-- The fixture `testValues`, an empty map. -/
def testValues : TestRow := []

/-- The fixture `testMultiValues`, 50 rows. -/
def testMultiValues : List TestRow := List.replicate 50 []

/-- The fixture `fieldsToRead`. -/
def fieldsToRead : List String := ["uuid"]

/-! ## The registry (`registry/registry.go`) -/

/-- The error values that `registry.go` returns.  `E` is the type of the
error values that come from package `dosa`. -/
inductive RegistryError (E : Type)
  /-- An error made by `errors.Errorf` or `fmt.Errorf`, with its formatted text. -/
  | message (text : String)
  /-- The error of `errors.Wrap(cause, text)`. -/
  | wrap (cause : E) (text : String)
  /-- The error of `dosa.NewEntityErrors(warns)`. -/
  | entityErrors (warns : List E)
  /-- An error of package `dosa`, returned as it is. -/
  | passed (err : E)

/-- The parts of package `dosa` that `registry.go` calls and that are not
among the sources; they are parameters of the embedding.  `FQN` stands for
`dosa.FQN`, `T` for the entity definitions that `dosa.FindEntities` returns,
`RE` for `dosa.RegisteredEntity`, `E` for the error values. -/
structure DosaPkg (FQN T RE E : Type) where
  /-- The function `dosa.ToFQN`. -/
  ToFQN : String → FQN × Option E
  /-- The method `dosa.FQN.Child`. -/
  Child : FQN → String → FQN × Option E
  /-- The field `StructName` of an entity definition. -/
  StructName : T → String
  /-- The function `dosa.NewRegisteredEntity(scope, namePrefix, ed)`. -/
  NewRegisteredEntity : String → String → T → RE
  /-- The function `dosa.FindEntities(paths, excludes)`: the definitions, the
  warnings and the error. -/
  FindEntities : List String → List String → List T × List E × Option E

/-- Embeds `config.Config`, as far as `NewRegistrar` reads it. -/
structure Config where
  Scope : String
  NamePrefix : String
  EntityPaths : List String
  Excludes : List String
  deriving DecidableEq, Repr

/-- Embeds the type `registrar`; its field `prefix` is called `namePrefix` here.
The map `idx` is an association list without repeated keys. -/
structure registrar (FQN RE : Type) where
  scope : String
  namePrefix : String
  baseFQN : FQN
  idx : AList (fun _ : FQN => RE)

/-- Embeds `(*registrar).Scope()`. -/
def registrar.Scope {FQN RE : Type} (r : registrar FQN RE) : String := r.scope

/-- Embeds `(*registrar).NamePrefix()`. -/
def registrar.NamePrefix {FQN RE : Type} (r : registrar FQN RE) : String := r.namePrefix

/-- Embeds `(*registrar).Find(entity)`, with `name` the structural name
`reflect.TypeOf(entity).Name()` of the entity: the registrar after the call,
the returned registered entity and the returned error.  The error of `Child`
is dropped, as in the source. -/
def registrar.Find {FQN T RE E : Type} [DecidableEq FQN] (pkg : DosaPkg FQN T RE E)
    (r : registrar FQN RE) (name : String) :
    registrar FQN RE × Option RE × Option (RegistryError E) :=
  match r.idx.lookup (pkg.Child r.baseFQN name).1 with
  | none =>
    (r, none, some (RegistryError.message ("failed to find registration for entity " ++ name)))
  | some re => (r, some re, none)

/-- Embeds `(*registrar).FindAll()`: the returned list (`none` for nil) and the
returned error.  The order in which `range` walks over a map is not fixed, so
the sequence `visit` of the entries in the order of the walk is an argument;
it is a permutation of the entries of `r.idx`. -/
def registrar.FindAll (E : Type) {FQN RE : Type} (_r : registrar FQN RE)
    (visit : List (Sigma (fun _ : FQN => RE))) : Option (List RE) × Option (RegistryError E) :=
  if (visit.foldl (fun res entry => res ++ [entry.2]) []).length = 0 then
    (none, some (RegistryError.message "registry.FindAll returned empty"))
  else (some (visit.foldl (fun res entry => res ++ [entry.2]) []), none)

/-- Embeds `NewRegistrar(cfg)`: the returned registrar (`none` for nil) and the
returned error. -/
def NewRegistrar {FQN T RE E : Type} [DecidableEq FQN] (pkg : DosaPkg FQN T RE E)
    (cfg : Config) : Option (registrar FQN RE) × Option (RegistryError E) :=
  match pkg.ToFQN cfg.NamePrefix with
  | (_, some err) => (none, some (RegistryError.wrap err "failed to construct Registrar"))
  | (baseFQN, none) =>
    if (pkg.FindEntities cfg.EntityPaths cfg.Excludes).2.1.length > 0 then
      (none, some (RegistryError.entityErrors (pkg.FindEntities cfg.EntityPaths cfg.Excludes).2.1))
    else
      match (pkg.FindEntities cfg.EntityPaths cfg.Excludes).2.2 with
      | some err => (none, some (RegistryError.passed err))
      | none =>
        (some
          { scope := cfg.Scope
            namePrefix := cfg.NamePrefix
            baseFQN := baseFQN
            idx := (pkg.FindEntities cfg.EntityPaths cfg.Excludes).1.foldl
              (fun idx ed =>
                idx.insert (pkg.Child baseFQN (pkg.StructName ed)).1
                  (pkg.NewRegisteredEntity cfg.Scope cfg.NamePrefix ed))
              ∅ },
          none)

/-! ## Reading of the specification's words -/

/-- The last definition of the list whose structural name has the child FQN
`k` under `base`. -/
def lastFor {FQN T RE E : Type} [DecidableEq FQN] (pkg : DosaPkg FQN T RE E) (base k : FQN) :
    List T → Option T
  | [] => none
  | ed :: rest =>
    match lastFor pkg base k rest with
    | some later => some later
    | none => if (pkg.Child base (pkg.StructName ed)).1 = k then some ed else none

/-- An entity definition for the examples: its structural name and a number
that tells definitions of one name apart. -/
structure ExampleTable where
  StructName : String
  Revision : Nat
  deriving DecidableEq, Repr

/-- Modelled from the spec: `dosa.ToFQN`, `dosa.FQN.Child`,
`dosa.NewRegisteredEntity` and `dosa.FindEntities`, which are not among the
sources.  An FQN is the list of its segments: it is rooted at the name
prefix and has the structural name of the entity as a child segment; a
registered entity binds the scope, the name prefix and the definition; the
discovery returns the result `found`. -/
def exampleDosa (found : List ExampleTable × List String × Option String) :
    DosaPkg (List String) ExampleTable (String × String × ExampleTable) String :=
  { ToFQN := fun s => ([s], none)
    Child := fun f s => (f ++ [s], none)
    StructName := fun ed => ed.StructName
    NewRegisteredEntity := fun scope namePrefix ed => (scope, namePrefix, ed)
    FindEntities := fun _ _ => found }

/-- The configuration of the scenario of the spec: scope `acct`, prefix
`billing`. -/
def exampleConfig : Config :=
  { Scope := "acct", NamePrefix := "billing", EntityPaths := [], Excludes := [] }

/-- A registrar for the examples, with the entities `Order` and `User`. -/
def exampleRegistrar : registrar (List String) (String × String × ExampleTable) :=
  { scope := "acct"
    namePrefix := "billing"
    baseFQN := ["billing"]
    idx := ((∅ : AList (fun _ : List String => String × String × ExampleTable)).insert
      ["billing", "Order"] ("acct", "billing", ⟨"Order", 1⟩)).insert
      ["billing", "User"] ("acct", "billing", ⟨"User", 2⟩) }

/-- A discovery result with a warning and an error. -/
def foundWithWarning : List ExampleTable × List String × Option String :=
  ([⟨"Order", 1⟩], ["invalid annotation"], some "parse error")

/-- A discovery result with two definitions of the structural name `Order`. -/
def foundWithDuplicate : List ExampleTable × List String × Option String :=
  ([⟨"Order", 1⟩, ⟨"User", 2⟩, ⟨"Order", 3⟩], [], none)

/-- An instance of the absent parts of package `dosa` whose `Child` normalises
the structural name, as the comment in `NewRegistrar` has it (the index is
by prefix and normalised name): the child segment is the name in lower case.
The other parts are those of `exampleDosa`. -/
def normalizingDosa (found : List ExampleTable × List String × Option String) :
    DosaPkg (List String) ExampleTable (String × String × ExampleTable) String :=
  { ToFQN := fun s => ([s], none)
    Child := fun f s => (f ++ [String.mk (s.toList.map Char.toLower)], none)
    StructName := fun ed => ed.StructName
    NewRegisteredEntity := fun scope namePrefix ed => (scope, namePrefix, ed)
    FindEntities := fun _ _ => found }

/-- A discovery result with the two structural names `Order` and `order`. -/
def foundWithCaseVariants : List ExampleTable × List String × Option String :=
  ([⟨"Order", 1⟩, ⟨"order", 2⟩], [], none)

/-- The first non-space byte of a document decides the kind of its value. -/
def topKind (data : List Nat) : Option Kind :=
  match data.dropWhile isSpace with
  | [] => none
  | c :: _ => some (kindOfByte c)

/-- The rows that a run of `CreateIfNotExists` calls creates for the entity
name `name`, in the order of their creation: the rows of the calls whose
entity info has a `Ref` with that name. -/
def createdFor {Row : Type} (name : String) : List (EntityInfo × Row) → List Row
  | [] => []
  | call :: rest =>
    match call.1.Ref with
    | none => createdFor name rest
    | some ref =>
      if ref.EntityName = name then call.2 :: createdFor name rest else createdFor name rest

/-- A decimal digit byte, `'0'` to `'9'`. -/
def isDigit (c : Nat) : Bool := decide (48 ≤ c) && decide (c ≤ 57)

/-- The number denoted by a string of decimal digits, most significant first. -/
def digitsValue (ds : List Nat) : Nat := ds.foldl (fun n c => n * 10 + (c - 48)) 0

/-- The integer denoted by a base-10 literal: an optional sign `+` or `-`
followed by one or more decimal digits; `none` for any other text. -/
def decimalLiteral (s : List Nat) : Option Int :=
  match s with
  | [] => none
  | c :: ds =>
    if c = 43 then
      if ds ≠ [] ∧ ds.all isDigit = true then some (digitsValue ds : Int) else none
    else if c = 45 then
      if ds ≠ [] ∧ ds.all isDigit = true then some (-(digitsValue ds : Int)) else none
    else
      if (c :: ds).all isDigit = true then some (digitsValue (c :: ds) : Int) else none

/-- The text is a base-10 literal of a value in the `int64` range. -/
def IsInt64Literal (s : List Nat) : Prop :=
  match decimalLiteral s with
  | some v => IsInt64 v
  | none => False

instance (s : List Nat) : Decidable (IsInt64Literal s) := by
  unfold IsInt64Literal
  cases decimalLiteral s <;> exact inferInstance

/-- The exponent part of a JSON number literal: the mark `e` or `E`, an
optional sign `+` or `-`, and the digits. -/
structure JsonExp where
  mark : Nat
  sign : Option Nat
  digits : List Nat
  deriving DecidableEq, Repr

/-- A JSON number literal, by the parts of its grammar (RFC 8259):
`[ - ] int [ . frac ] [ exp ]`. -/
structure JsonNumber where
  neg : Bool
  int : List Nat
  frac : Option (List Nat)
  exp : Option JsonExp
  deriving DecidableEq, Repr

/-- The grammar of a JSON number: the integer part is `0` or digits without
a leading zero, a fraction part has at least one digit, an exponent part has
at least one digit. -/
def JsonNumber.wellFormed (n : JsonNumber) : Bool :=
  (match n.int with
    | [] => false
    | c :: cs => isDigit c && cs.all isDigit && (decide (c ≠ 48) || cs.isEmpty)) &&
  (match n.frac with
    | none => true
    | some ds => !ds.isEmpty && ds.all isDigit) &&
  (match n.exp with
    | none => true
    | some e =>
      (decide (e.mark = 101) || decide (e.mark = 69)) &&
      (match e.sign with
        | none => true
        | some sg => decide (sg = 43) || decide (sg = 45)) &&
      !e.digits.isEmpty && e.digits.all isDigit)

/-- The bytes of the fraction part, with its point. -/
def JsonNumber.fracBytes (n : JsonNumber) : List Nat :=
  match n.frac with
  | none => []
  | some ds => 46 :: ds

/-- The bytes of the exponent part. -/
def JsonNumber.expBytes (n : JsonNumber) : List Nat :=
  match n.exp with
  | none => []
  | some e => e.mark :: ((match e.sign with | none => [] | some sg => [sg]) ++ e.digits)

/-- The text of a JSON number literal. -/
def JsonNumber.render (n : JsonNumber) : List Nat :=
  (if n.neg then [45] else []) ++ n.int ++ (n.fracBytes ++ n.expBytes)

/-- The decimal exponent of the last digit of the literal: the written
exponent minus the number of fraction digits. -/
def JsonNumber.exp10 (n : JsonNumber) : Int :=
  (match n.exp with
    | none => 0
    | some e => if e.sign = some 45 then -(digitsValue e.digits : Int) else (digitsValue e.digits : Int))
  - ((n.frac.getD []).length : Int)

/-- The signed integer written by all the digits of the literal, integer
part and fraction part together. -/
def JsonNumber.signedMantissa (n : JsonNumber) : Int :=
  if n.neg then -(digitsValue (n.int ++ n.frac.getD []) : Int)
  else (digitsValue (n.int ++ n.frac.getD []) : Int)

/-- The numeric value of the literal, `signedMantissa * 10 ^ exp10`, is the
integer `v`. -/
def JsonNumber.denotes (n : JsonNumber) (v : Int) : Prop :=
  if 0 ≤ n.exp10 then v = n.signedMantissa * 10 ^ n.exp10.toNat
  else v * 10 ^ (-n.exp10).toNat = n.signedMantissa

instance (n : JsonNumber) (v : Int) : Decidable (n.denotes v) := by
  unfold JsonNumber.denotes; exact inferInstance

/-- The numeric value of the literal is an integer: its fractional part is
zero. -/
def JsonNumber.IsIntegral (n : JsonNumber) : Prop := ∃ v : Int, n.denotes v

/-- The literal `3.14`. -/
def literalPi : JsonNumber := ⟨false, [51], some [49, 52], none⟩

/-- The literal `1.0`, whose value is the integer 1. -/
def literalOnePointZero : JsonNumber := ⟨false, [49], some [48], none⟩

/-- The literal `-42`. -/
def literalMinus42 : JsonNumber := ⟨true, [52, 50], none, none⟩

/-- The literal `1` followed by 400 zeros and `.5`: a number with a non-zero
fractional part, which `strconv.ParseFloat` rejects as out of range. -/
def literalHugeFraction : JsonNumber := ⟨false, 49 :: List.replicate 400 48, some [53], none⟩

/-- The document `[1e999]`: an array with a number literal that
`strconv.ParseFloat` rejects as out of range. -/
def documentHugeArray : List Nat := [91, 49, 101, 57, 57, 57, 93]

/-- The document `"42"`: a string. -/
def documentString : List Nat := [34, 52, 50, 34]

/-- The document `tru`, which is not valid JSON. -/
def documentTruncated : List Nat := [116, 114, 117]

/-! # Theorems -/

/-! ## strconv -/

theorem foldl_digit_ge (ds : List Nat) (n : Nat) :
    n ≤ ds.foldl (fun n c => n * 10 + (c - 48)) n := by
  induction ds generalizing n with
  | nil => simp
  | cons c cs ih =>
    simp only [List.foldl_cons]
    have := ih (n * 10 + (c - 48))
    omega

/-- On a string of digits whose value stays inside `uint64`, the loop of
`ParseUint` returns that value and no error. -/
theorem parseUintLoop_digits (ds : List Nat) (n : Nat)
    (hd : ds.all isDigit = true)
    (hv : ds.foldl (fun n c => n * 10 + (c - 48)) n < 2 ^ 64) :
    parseUintLoop ds n = (ds.foldl (fun n c => n * 10 + (c - 48)) n, none) := by
  induction ds generalizing n with
  | nil => simp [parseUintLoop]
  | cons c cs ih =>
    simp only [List.all_cons, Bool.and_eq_true, isDigit, decide_eq_true_eq] at hd
    simp only [List.foldl_cons] at hv ⊢
    have hge := foldl_digit_ge cs (n * 10 + (c - 48))
    have h1 : n * 10 + (c - 48) < 2 ^ 64 := lt_of_le_of_lt hge hv
    have hmod : ((n * 10) % 2 ^ 64 + (c - 48)) % 2 ^ 64 = n * 10 + (c - 48) := by
      norm_num at h1 ⊢; omega
    have hmod10 : (n * 10) % 2 ^ 64 = n * 10 := by
      norm_num at h1 ⊢; omega
    rw [parseUintLoop]
    have hc : 48 ≤ c ∧ c ≤ 57 := hd.1
    rw [if_pos hc]
    have h2 : ¬ (c - 48 ≥ 10) := by omega
    have h3 : ¬ (n ≥ (2 ^ 64 - 1) / 10 + 1) := by norm_num at h1 ⊢; omega
    simp only [h2, h3, if_false, hmod]
    have h4 : ¬ (n * 10 + (c - 48) < n * 10 % 2 ^ 64 ∨ n * 10 + (c - 48) > 2 ^ 64 - 1) := by
      rw [hmod10]; norm_num at h1 ⊢; omega
    rw [if_neg h4]
    exact ih _ hd.2 hv

/-- When the loop of `ParseUint` returns no error, the text consisted of
digits only and the result is their value, inside `uint64`. -/
theorem parseUintLoop_ok (ds : List Nat) (n v : Nat) (hn : n < 2 ^ 64)
    (h : parseUintLoop ds n = (v, none)) :
    ds.all isDigit = true ∧ v = ds.foldl (fun n c => n * 10 + (c - 48)) n ∧ v < 2 ^ 64 := by
  induction ds generalizing n with
  | nil =>
    simp only [parseUintLoop, Prod.mk.injEq, and_true] at h
    subst h
    exact ⟨rfl, rfl, hn⟩
  | cons c cs ih =>
    rw [parseUintLoop] at h
    by_cases hc : 48 ≤ c ∧ c ≤ 57
    · rw [if_pos hc] at h
      have h2 : ¬ (c - 48 ≥ 10) := by omega
      dsimp only at h
      rw [if_neg h2] at h
      by_cases h3 : n ≥ (2 ^ 64 - 1) / 10 + 1
      · rw [if_pos h3] at h
        simp at h
      · rw [if_neg h3] at h
        by_cases h4 : ((n * 10) % 2 ^ 64 + (c - 48)) % 2 ^ 64 < n * 10 % 2 ^ 64 ∨
            ((n * 10) % 2 ^ 64 + (c - 48)) % 2 ^ 64 > 2 ^ 64 - 1
        · rw [if_pos h4] at h
          simp at h
        · rw [if_neg h4] at h
          have hlt : n * 10 + (c - 48) < 2 ^ 64 := by
            norm_num at h3 h4 ⊢; omega
          have hmod : ((n * 10) % 2 ^ 64 + (c - 48)) % 2 ^ 64 = n * 10 + (c - 48) := by
            norm_num at hlt ⊢; omega
          rw [hmod] at h
          obtain ⟨a, b, c'⟩ := ih _ hlt h
          refine ⟨?_, ?_, c'⟩
          · simp [isDigit, hc.1, hc.2, a]
          · simpa using b
    · rw [if_neg hc] at h
      by_cases hl : 97 ≤ lower c ∧ lower c ≤ 122
      · rw [if_pos hl] at h
        have h2 : lower c - 97 + 10 ≥ 10 := by omega
        dsimp only at h
        rw [if_pos h2] at h
        simp at h
      · rw [if_neg hl] at h
        simp at h

/-- The errors of the loop of `ParseUint`: a syntax error comes with the
value 0, a range error with the largest `uint64`. -/
theorem parseUintLoop_err (ds : List Nat) (n v : Nat) (e : Error)
    (h : parseUintLoop ds n = (v, some e)) :
    (e = Error.numSyntax ∧ v = 0) ∨ (e = Error.numRange ∧ v = 2 ^ 64 - 1) := by
  induction ds generalizing n with
  | nil => simp [parseUintLoop] at h
  | cons c cs ih =>
    rw [parseUintLoop] at h
    dsimp only at h
    split_ifs at h
    all_goals first
      | exact ih _ h
      | (simp only [Prod.mk.injEq, Option.some.injEq] at h
         obtain ⟨h1, h2⟩ := h
         subst h1 h2
         simp)

theorem digitsValue_append_one (ds : List Nat) (d : Nat) :
    digitsValue (ds ++ [d]) = digitsValue ds * 10 + (d - 48) := by
  simp [digitsValue, List.foldl_append]

/-- The digit loop of `formatBits` writes the decimal digits of `u`, without
a leading zero unless `u = 0`, whenever the fuel covers the digits of `u`. -/
theorem formatBitsLoop_spec (fuel u : Nat) (acc : List Nat) (h : u < 10 ^ (fuel + 1)) :
    ∃ c cs, formatBitsLoop (fuel + 1) u acc = c :: cs ++ acc ∧ isDigit c = true ∧
      cs.all isDigit = true ∧ digitsValue (c :: cs) = u ∧ (c = 48 → cs = []) := by
  induction fuel generalizing u acc with
  | zero =>
    have hu : ¬ (u ≥ 10) := by simpa using h
    refine ⟨48 + u, [], ?_, ?_, rfl, ?_, fun _ => rfl⟩
    · simp [formatBitsLoop, hu]
    · simp [isDigit]; omega
    · simp [digitsValue]
  | succ fuel ih =>
    by_cases hu : u ≥ 10
    · have hdiv : u / 10 < 10 ^ (fuel + 1) := by
        rw [Nat.div_lt_iff_lt_mul (by norm_num)]
        calc u < 10 ^ (fuel + 1 + 1) := h
          _ = 10 ^ (fuel + 1) * 10 := by ring
      obtain ⟨c, cs, h1, h2, h3, h4, h5⟩ := ih (u / 10) ((48 + u % 10) :: acc) hdiv
      refine ⟨c, cs ++ [48 + u % 10], ?_, h2, ?_, ?_, ?_⟩
      · rw [formatBitsLoop, if_pos hu, h1]; simp
      · simp only [List.all_append, h3, List.all_cons, List.all_nil, Bool.and_true,
          Bool.true_and, isDigit, Bool.and_eq_true, decide_eq_true_eq]
        omega
      · have := digitsValue_append_one (c :: cs) (48 + u % 10)
        rw [List.cons_append] at this
        rw [this, h4]; omega
      · intro hc
        have hcs := h5 hc
        subst hc hcs
        simp [digitsValue] at h4
        omega
    · refine ⟨48 + u, [], ?_, ?_, rfl, ?_, fun _ => rfl⟩
      · simp [formatBitsLoop, hu]
      · simp [isDigit]; omega
      · simp [digitsValue]

/-- The function `ParseUint` on a non-empty string of digits whose value fits `uint64`. -/
theorem ParseUint_digits (c : Nat) (cs : List Nat) (hc : isDigit c = true)
    (hcs : cs.all isDigit = true) (hv : digitsValue (c :: cs) < 2 ^ 64) :
    ParseUint (c :: cs) = (digitsValue (c :: cs), none) := by
  have hall : (c :: cs).all isDigit = true := by simp [hc, hcs]
  simpa [ParseUint, digitsValue] using parseUintLoop_digits (c :: cs) 0 hall hv

/-- The function `ParseInt` on an unsigned string of digits whose value is below `2^63`. -/
theorem ParseInt_digits (c : Nat) (cs : List Nat) (hc : isDigit c = true)
    (hcs : cs.all isDigit = true) (hv : digitsValue (c :: cs) < 2 ^ 63) :
    ParseInt (c :: cs) = ((digitsValue (c :: cs) : Int), none) := by
  have hc2 : 48 ≤ c ∧ c ≤ 57 := by simpa [isDigit] using hc
  have h43 : c ≠ 43 := by omega
  have h45 : c ≠ 45 := by omega
  have hlt : digitsValue (c :: cs) < 2 ^ 64 := by
    norm_num at hv ⊢; omega
  simp only [ParseInt, if_neg h43, if_neg h45, parseIntSigned, ParseUint_digits c cs hc hcs hlt]
  norm_num at hv
  simp [hv]

/-- The function `ParseInt` on a minus sign followed by digits whose value is at most `2^63`. -/
theorem ParseInt_neg_digits (c : Nat) (cs : List Nat) (hc : isDigit c = true)
    (hcs : cs.all isDigit = true) (hv : digitsValue (c :: cs) ≤ 2 ^ 63) :
    ParseInt (45 :: c :: cs) = (-(digitsValue (c :: cs) : Int), none) := by
  have hlt : digitsValue (c :: cs) < 2 ^ 64 := by
    norm_num at hv ⊢; omega
  simp only [ParseInt, parseIntSigned, ParseUint_digits c cs hc hcs hlt]
  norm_num at hv
  simp [hv]

/-- The output of `FormatInt` on an `int64`: a minus sign for a negative
value, then the decimal digits of the magnitude without a leading zero. -/
theorem FormatInt_spec (x : Int) (hx : IsInt64 x) :
    ∃ c cs, FormatInt x = (if x < 0 then [45] else []) ++ c :: cs ∧ isDigit c = true ∧
      cs.all isDigit = true ∧ digitsValue (c :: cs) = x.natAbs ∧ (c = 48 → cs = []) := by
  obtain ⟨h1, h2⟩ := hx
  have habs : x.natAbs ≤ 2 ^ 63 := by
    norm_num at h1 h2 ⊢; omega
  have hmod : x.natAbs % 2 ^ 64 = x.natAbs := by
    apply Nat.mod_eq_of_lt
    norm_num at habs ⊢; omega
  have hfuel : x.natAbs < 10 ^ (19 + 1) := by
    norm_num at habs ⊢; omega
  obtain ⟨c, cs, e1, e2, e3, e4, e5⟩ := formatBitsLoop_spec 19 x.natAbs [] hfuel
  refine ⟨c, cs, ?_, e2, e3, e4, e5⟩
  unfold FormatInt
  rw [hmod, e1]
  by_cases hneg : x < 0 <;> simp [hneg]

/-- The function `ParseInt` inverts `FormatInt` on every `int64`. -/
theorem ParseInt_FormatInt (x : Int) (hx : IsInt64 x) :
    ParseInt (FormatInt x) = (x, none) := by
  obtain ⟨c, cs, e1, e2, e3, e4, _⟩ := FormatInt_spec x hx
  obtain ⟨h1, h2⟩ := hx
  by_cases hneg : x < 0
  · rw [e1, if_pos hneg]
    have hv : digitsValue (c :: cs) ≤ 2 ^ 63 := by
      rw [e4]; norm_num at h1 h2 ⊢; omega
    have := ParseInt_neg_digits c cs e2 e3 hv
    simp only [List.singleton_append]
    rw [this, e4]
    congr 1
    omega
  · rw [e1, if_neg hneg]
    have hv : digitsValue (c :: cs) < 2 ^ 63 := by
      rw [e4]; norm_num at h1 h2 ⊢; omega
    have := ParseInt_digits c cs e2 e3 hv
    simp only [List.nil_append]
    rw [this, e4]
    congr 1
    omega

/-- When the signed part of `ParseInt` returns no error, the text after the
sign is a non-empty string of digits and the result is its signed value,
inside `int64`. -/
theorem parseIntSigned_ok (neg : Bool) (s : List Nat) (v : Int)
    (h : parseIntSigned neg s = (v, none)) :
    s ≠ [] ∧ s.all isDigit = true ∧
      v = (if neg then -(digitsValue s : Int) else (digitsValue s : Int)) ∧ IsInt64 v := by
  unfold parseIntSigned at h
  by_cases hs : s = []
  · subst hs
    simp [ParseUint] at h
  · simp only [ParseUint, if_neg hs] at h
    rcases hp : parseUintLoop s 0 with ⟨un, e⟩
    rw [hp] at h
    cases e with
    | none =>
      obtain ⟨a, b, c⟩ := parseUintLoop_ok s 0 un (by norm_num) hp
      have hb : un = digitsValue s := b
      refine ⟨hs, a, ?_⟩
      dsimp only at h
      cases neg
      · simp at h
        split_ifs at h with hr
        · simp at h
        · simp at h
          subst h
          refine ⟨by simp [hb], ?_⟩
          unfold IsInt64
          norm_num at hr ⊢
          omega
      · simp at h
        split_ifs at h with hr
        · simp at h
        · simp at h
          subst h
          refine ⟨by simp [hb], ?_⟩
          unfold IsInt64
          norm_num at hr ⊢
          omega
    | some e =>
      rcases parseUintLoop_err s 0 un e hp with ⟨he, _⟩ | ⟨he, hv⟩
      · subst he
        simp at h
      · subst he hv
        cases neg <;> simp at h

/-- When `ParseInt` returns no error, its argument is a base-10 literal and
the result is the value of the literal, inside `int64`. -/
theorem ParseInt_ok (s : List Nat) (v : Int) (h : ParseInt s = (v, none)) :
    decimalLiteral s = some v ∧ IsInt64 v := by
  cases s with
  | nil => simp [ParseInt] at h
  | cons c rest =>
    simp only [ParseInt] at h
    simp only [decimalLiteral]
    by_cases h43 : c = 43
    · rw [if_pos h43] at h
      rw [if_pos h43]
      obtain ⟨a, b, e, r⟩ := parseIntSigned_ok false rest v h
      exact ⟨by simp [a, b, e], r⟩
    · rw [if_neg h43] at h
      rw [if_neg h43]
      by_cases h45 : c = 45
      · rw [if_pos h45] at h
        rw [if_pos h45]
        obtain ⟨a, b, e, r⟩ := parseIntSigned_ok true rest v h
        exact ⟨by simp [a, b, e], r⟩
      · rw [if_neg h45] at h
        rw [if_neg h45]
        obtain ⟨_, b, e, r⟩ := parseIntSigned_ok false (c :: rest) v h
        exact ⟨by simp [b, e], r⟩

/-! ## NullInt64: accessors and the text encoding -/

/-- C1: for every int64 `x` and every receiver `r`, valid or not,
`MarshalText` of `NewNullInt64(x)` returns no error and `r.UnmarshalText` on
the returned bytes returns no error and leaves `r` valid with value `x`. -/
theorem C1_text_round_trip (x : Int) (hx : IsInt64 x) (r : NullInt64) :
    (NewNullInt64 x).MarshalText.2 = none ∧
      r.UnmarshalText (NewNullInt64 x).MarshalText.1 = ({ Int64 := x, Valid := true }, none) := by
  obtain ⟨c, cs, e1, e2, _, _, _⟩ := FormatInt_spec x hx
  have hc : 48 ≤ c ∧ c ≤ 57 := by simpa [isDigit] using e2
  have hne : FormatInt x ≠ [] := by
    rw [e1]; split_ifs <;> simp
  have hnull : FormatInt x ≠ nullBytes := by
    rw [e1, nullBytes]
    split_ifs
    · simp
    · simp only [List.nil_append, ne_eq, List.cons.injEq, not_and]
      intro h; omega
  have hp := ParseInt_FormatInt x hx
  simp [NewNullInt64, NullInt64.MarshalText, NullInt64.UnmarshalText, hne, hnull, hp]

/-- The round trip of C1 at the smallest int64, into a valid receiver. -/
theorem C1_text_round_trip_witness :
    IsInt64 (-9223372036854775808) ∧
      ((NewNullInt64 (-9223372036854775808)).MarshalText.2 = none ∧
        (NullInt64.mk 7 true).UnmarshalText (NewNullInt64 (-9223372036854775808)).MarshalText.1 =
          ({ Int64 := -9223372036854775808, Valid := true }, none)) :=
  ⟨by unfold IsInt64; norm_num,
    C1_text_round_trip (-9223372036854775808) (by unfold IsInt64; norm_num) (NullInt64.mk 7 true)⟩

/-- C3: for every NullInt64, whatever its prior state, `Nullify()` followed
by `Get()` returns the value 0 and the error `ErrNullValue`. -/
theorem C3_nullify_then_get (i : NullInt64) :
    i.Nullify.Get = (0, some Error.ErrNullValue) := by
  simp [NullInt64.Nullify, NullInt64.Get]

/-- C4: for every receiver, whatever its prior state, `UnmarshalText` of the
empty byte string and of the bytes `null` both return no error and leave the
receiver invalid, so that a following `Get()` returns `ErrNullValue`. -/
theorem C4_unmarshal_text_empty_or_null (r : NullInt64) :
    (r.UnmarshalText []).2 = none ∧ (r.UnmarshalText []).1.Valid = false ∧
      (r.UnmarshalText []).1.Get.2 = some Error.ErrNullValue ∧
      (r.UnmarshalText nullBytes).2 = none ∧ (r.UnmarshalText nullBytes).1.Valid = false ∧
      (r.UnmarshalText nullBytes).1.Get.2 = some Error.ErrNullValue := by
  simp [NullInt64.UnmarshalText, NullInt64.Get]

/-- C5: for every byte string that is neither empty, nor `null`, nor a
base-10 literal of a value in the int64 range, `UnmarshalText` on any
receiver returns a non-nil error and leaves the receiver invalid. -/
theorem C5_unmarshal_text_unparsable (data : List Nat) (r : NullInt64)
    (h1 : data ≠ []) (h2 : data ≠ nullBytes) (h3 : ¬ IsInt64Literal data) :
    (r.UnmarshalText data).2 ≠ none ∧ (r.UnmarshalText data).1.Valid = false := by
  have herr : (ParseInt data).2 ≠ none := by
    intro hnone
    have hp : ParseInt data = ((ParseInt data).1, none) := by
      rw [← hnone]
    obtain ⟨hd, hr⟩ := ParseInt_ok data _ hp
    apply h3
    unfold IsInt64Literal
    rw [hd]
    exact hr
  have hsome : (ParseInt data).2.isNone = false := by
    cases hq : (ParseInt data).2 with
    | none => exact absurd hq herr
    | some e => rfl
  simp [NullInt64.UnmarshalText, h1, h2, herr, hsome]

/-- C5 at the numeral `9223372036854775808`, one beyond the int64 range, with
a receiver that was valid before the call. -/
theorem C5_unmarshal_text_unparsable_witness :
    ([57, 50, 50, 51, 51, 55, 50, 48, 51, 54, 56, 53, 52, 55, 55, 53, 56, 48, 56] : List Nat) ≠ [] ∧
      ((NullInt64.mk 7 true).UnmarshalText
        [57, 50, 50, 51, 51, 55, 50, 48, 51, 54, 56, 53, 52, 55, 55, 53, 56, 48, 56]).2 ≠ none ∧
      ((NullInt64.mk 7 true).UnmarshalText
        [57, 50, 50, 51, 51, 55, 50, 48, 51, 54, 56, 53, 52, 55, 55, 53, 56, 48, 56]).1.Valid = false :=
  ⟨by simp,
    C5_unmarshal_text_unparsable
      [57, 50, 50, 51, 51, 55, 50, 48, 51, 54, 56, 53, 52, 55, 55, 53, 56, 48, 56]
      (NullInt64.mk 7 true) (by simp) (by simp [nullBytes])
      (by simp [IsInt64Literal, decimalLiteral, digitsValue, isDigit, IsInt64])⟩

/-- C9: for every `v` and every receiver, whatever its prior state (also
after `Nullify()`), `Set(v)` followed by `Get()` returns `v` with a nil
error, and so does `NewNullInt64(v).Get()`. -/
theorem C9_set_then_get (v : Int) (r : NullInt64) :
    (r.Set v).Get = (v, none) ∧ (r.Nullify.Set v).Get = (v, none) ∧
      (NewNullInt64 v).Get = (v, none) := by
  simp [NullInt64.Set, NullInt64.Get, NewNullInt64]

/-! ## encoding/json: the scanner on a number literal -/

theorem checkValidLoop_append (a b : List Nat) (s : scanner) :
    checkValidLoop (a ++ b) s = (checkValidLoop a s).bind (checkValidLoop b) := by
  induction a generalizing s with
  | nil => simp [checkValidLoop]
  | cons c cs ih =>
    simp only [List.cons_append, checkValidLoop]
    split_ifs
    · simp
    · exact ih _

/-- Digits keep the scanner in `state1`. -/
theorem scan_digits_state1 (ds : List Nat) (h : ds.all isDigit = true) :
    checkValidLoop ds ⟨Step.state1, false, [], false⟩ = some ⟨Step.state1, false, [], false⟩ := by
  induction ds with
  | nil => rfl
  | cons c cs ih =>
    simp only [List.all_cons, Bool.and_eq_true, isDigit, decide_eq_true_eq] at h
    have hc : 48 ≤ c ∧ c ≤ 57 := h.1
    simp only [checkValidLoop, scanner.call, state1, if_pos hc]
    simpa using ih (by simpa [isDigit] using h.2)

/-- Digits keep the scanner in `stateDot0`. -/
theorem scan_digits_stateDot0 (ds : List Nat) (h : ds.all isDigit = true) :
    checkValidLoop ds ⟨Step.stateDot0, false, [], false⟩ =
      some ⟨Step.stateDot0, false, [], false⟩ := by
  induction ds with
  | nil => rfl
  | cons c cs ih =>
    simp only [List.all_cons, Bool.and_eq_true, isDigit, decide_eq_true_eq] at h
    have hc : 48 ≤ c ∧ c ≤ 57 := h.1
    simp only [checkValidLoop, scanner.call, stateDot0, if_pos hc]
    simpa using ih (by simpa [isDigit] using h.2)

/-- Digits keep the scanner in `stateE0`. -/
theorem scan_digits_stateE0 (ds : List Nat) (h : ds.all isDigit = true) :
    checkValidLoop ds ⟨Step.stateE0, false, [], false⟩ =
      some ⟨Step.stateE0, false, [], false⟩ := by
  induction ds with
  | nil => rfl
  | cons c cs ih =>
    simp only [List.all_cons, Bool.and_eq_true, isDigit, decide_eq_true_eq] at h
    have hc : 48 ≤ c ∧ c ≤ 57 := h.1
    simp only [checkValidLoop, scanner.call, stateE0, if_pos hc]
    simpa using ih (by simpa [isDigit] using h.2)

/-- The steps in which the scanner can be at the end of a number literal. -/
theorem eof_after_number (st : Step)
    (h : st = Step.state0 ∨ st = Step.state1 ∨ st = Step.stateDot0 ∨ st = Step.stateE0) :
    (scanner.mk st false [] false).eof = Op.scanEnd := by
  rcases h with h | h | h | h <;> subst h <;> rfl

/-- The integer part of a number literal, read from `stateBeginValue` or from
`stateNeg`, leaves the scanner in `state0` or `state1`. -/
theorem scan_int (st0 : Step) (h0 : st0 = Step.stateBeginValue ∨ st0 = Step.stateNeg)
    (c : Nat) (cs : List Nat) (hc : isDigit c = true) (hcs : cs.all isDigit = true)
    (hz : c = 48 → cs = []) :
    ∃ st, (st = Step.state0 ∨ st = Step.state1) ∧
      checkValidLoop (c :: cs) ⟨st0, false, [], false⟩ = some ⟨st, false, [], false⟩ := by
  have hc2 : 48 ≤ c ∧ c ≤ 57 := by simpa [isDigit] using hc
  by_cases h48 : c = 48
  · have hnil := hz h48
    subst h48 hnil
    refine ⟨Step.state0, Or.inl rfl, ?_⟩
    rcases h0 with h0 | h0 <;> subst h0 <;> rfl
  · have h49 : 49 ≤ c ∧ c ≤ 57 := by omega
    refine ⟨Step.state1, Or.inr rfl, ?_⟩
    have hsp : isSpace c = false := by
      simp [isSpace]; omega
    have e1 : c ≠ 123 := by omega
    have e2 : c ≠ 91 := by omega
    have e3 : c ≠ 34 := by omega
    have e4 : c ≠ 45 := by omega
    have e5 : c ≠ 116 := by omega
    have e6 : c ≠ 102 := by omega
    have e7 : c ≠ 110 := by omega
    rcases h0 with h0 | h0 <;> subst h0
    · simp only [checkValidLoop, scanner.call, stateBeginValue, hsp, e1, e2, e3, e4, h48, e5, e6,
        e7, if_pos h49]
      simpa using scan_digits_state1 cs hcs
    · simp only [checkValidLoop, scanner.call, stateNeg, h48, if_pos h49]
      simpa using scan_digits_state1 cs hcs

/-- A fraction part, read in `state0` or `state1`, leaves the scanner in
`stateDot0`. -/
theorem scan_frac (st : Step) (h : st = Step.state0 ∨ st = Step.state1)
    (d : Nat) (ds : List Nat) (hd : isDigit d = true) (hds : ds.all isDigit = true) :
    checkValidLoop (46 :: d :: ds) ⟨st, false, [], false⟩ =
      some ⟨Step.stateDot0, false, [], false⟩ := by
  have hd2 : 48 ≤ d ∧ d ≤ 57 := by simpa [isDigit] using hd
  rcases h with h | h <;> subst h
  · simp only [checkValidLoop, scanner.call, state0, stateDot, if_pos hd2]
    simpa using scan_digits_stateDot0 ds hds
  · simp only [checkValidLoop, scanner.call, state1, state0, stateDot, if_pos hd2]
    simpa using scan_digits_stateDot0 ds hds

/-- An exponent part, read in `state0`, `state1` or `stateDot0`, leaves the
scanner in `stateE0`. -/
theorem scan_exp (st : Step)
    (h : st = Step.state0 ∨ st = Step.state1 ∨ st = Step.stateDot0)
    (mark : Nat) (hm : mark = 101 ∨ mark = 69) (sg : List Nat)
    (hsg : sg = [] ∨ sg = [43] ∨ sg = [45])
    (d : Nat) (ds : List Nat) (hd : isDigit d = true) (hds : ds.all isDigit = true) :
    checkValidLoop (mark :: (sg ++ d :: ds)) ⟨st, false, [], false⟩ =
      some ⟨Step.stateE0, false, [], false⟩ := by
  have hd2 : 48 ≤ d ∧ d ≤ 57 := by simpa [isDigit] using hd
  have hd43 : d ≠ 43 := by omega
  have hd45 : d ≠ 45 := by omega
  have htail := scan_digits_stateE0 ds hds
  rcases h with h | h | h <;> subst h <;> rcases hm with hm | hm <;> subst hm <;>
    rcases hsg with hsg | hsg | hsg <;> subst hsg <;>
    simp only [checkValidLoop, scanner.call, state0, state1, stateDot0, stateE, stateESign,
      List.nil_append, List.cons_append, hd43, hd45, if_pos hd2] <;>
    simpa using htail

/-- The facts that `wellFormed` states about the parts of a number literal. -/
theorem wellFormed_parts (n : JsonNumber) (h : n.wellFormed = true) :
    (∃ c cs, n.int = c :: cs ∧ isDigit c = true ∧ cs.all isDigit = true ∧ (c = 48 → cs = [])) ∧
    (n.fracBytes = [] ∨
      ∃ d ds, n.fracBytes = 46 :: d :: ds ∧ isDigit d = true ∧ ds.all isDigit = true) ∧
    (n.expBytes = [] ∨
      ∃ mark sg d ds, n.expBytes = mark :: (sg ++ d :: ds) ∧ (mark = 101 ∨ mark = 69) ∧
        (sg = [] ∨ sg = [43] ∨ sg = [45]) ∧ isDigit d = true ∧ ds.all isDigit = true) := by
  obtain ⟨neg, int, frac, exp⟩ := n
  simp only [JsonNumber.wellFormed, Bool.and_eq_true] at h
  obtain ⟨⟨hint, hfrac⟩, hexp⟩ := h
  refine ⟨?_, ?_, ?_⟩
  · cases int with
    | nil => simp at hint
    | cons c cs =>
      simp only [Bool.and_eq_true, Bool.or_eq_true, decide_eq_true_eq, List.isEmpty_iff] at hint
      refine ⟨c, cs, rfl, hint.1.1, hint.1.2, ?_⟩
      intro hc
      rcases hint.2 with h1 | h1
      · exact absurd hc h1
      · exact h1
  · cases frac with
    | none => left; rfl
    | some ds =>
      right
      cases ds with
      | nil => simp at hfrac
      | cons d ds =>
        simp only [List.all_cons, Bool.and_eq_true] at hfrac
        exact ⟨d, ds, rfl, hfrac.2.1, hfrac.2.2⟩
  · cases exp with
    | none => left; rfl
    | some e =>
      right
      obtain ⟨mark, sign, digits⟩ := e
      simp only [Bool.and_eq_true, Bool.or_eq_true, decide_eq_true_eq] at hexp
      obtain ⟨⟨⟨hmark, hsign⟩, hne⟩, hall⟩ := hexp
      cases digits with
      | nil => simp at hne
      | cons d ds =>
        simp only [List.all_cons, Bool.and_eq_true] at hall
        cases sign with
        | none => exact ⟨mark, [], d, ds, rfl, hmark, Or.inl rfl, hall.1, hall.2⟩
        | some sg =>
          simp only [Bool.or_eq_true, decide_eq_true_eq] at hsign
          refine ⟨mark, [sg], d, ds, rfl, hmark, ?_, hall.1, hall.2⟩
          rcases hsign with h1 | h1 <;> subst h1 <;> simp

/-- The scanner accepts every well-formed number literal. -/
theorem checkValid_render (n : JsonNumber) (h : n.wellFormed = true) :
    checkValid n.render = true := by
  obtain ⟨⟨c, cs, hint, hc, hcs, hz⟩, hfrac, hexp⟩ := wellFormed_parts n h
  have hsign : ∃ st, (st = Step.state0 ∨ st = Step.state1) ∧
      checkValidLoop ((if n.neg then [45] else []) ++ n.int) scanner.reset =
        some ⟨st, false, [], false⟩ := by
    rw [hint]
    cases n.neg
    · simpa using scan_int Step.stateBeginValue (Or.inl rfl) c cs hc hcs hz
    · obtain ⟨st, hst, hrun⟩ := scan_int Step.stateNeg (Or.inr rfl) c cs hc hcs hz
      refine ⟨st, hst, ?_⟩
      simp only [if_true, List.singleton_append]
      rw [checkValidLoop]
      simpa [scanner.call, scanner.reset, stateBeginValue, isSpace] using hrun
  obtain ⟨st1, hst1, hrun1⟩ := hsign
  have hfracRun : ∃ st, (st = Step.state0 ∨ st = Step.state1 ∨ st = Step.stateDot0) ∧
      checkValidLoop n.fracBytes ⟨st1, false, [], false⟩ = some ⟨st, false, [], false⟩ := by
    rcases hfrac with hf | ⟨d, ds, hf, hd, hds⟩
    · rw [hf]
      rcases hst1 with h1 | h1
      · exact ⟨st1, Or.inl h1, rfl⟩
      · exact ⟨st1, Or.inr (Or.inl h1), rfl⟩
    · rw [hf]
      exact ⟨Step.stateDot0, Or.inr (Or.inr rfl), scan_frac st1 hst1 d ds hd hds⟩
  obtain ⟨st2, hst2, hrun2⟩ := hfracRun
  have hexpRun : ∃ st,
      (st = Step.state0 ∨ st = Step.state1 ∨ st = Step.stateDot0 ∨ st = Step.stateE0) ∧
      checkValidLoop n.expBytes ⟨st2, false, [], false⟩ = some ⟨st, false, [], false⟩ := by
    rcases hexp with he | ⟨mark, sg, d, ds, he, hm, hsg, hd, hds⟩
    · rw [he]
      rcases hst2 with h1 | h1 | h1
      · exact ⟨st2, Or.inl h1, rfl⟩
      · exact ⟨st2, Or.inr (Or.inl h1), rfl⟩
      · exact ⟨st2, Or.inr (Or.inr (Or.inl h1)), rfl⟩
    · rw [he]
      exact ⟨Step.stateE0, Or.inr (Or.inr (Or.inr rfl)),
        scan_exp st2 hst2 mark hm sg hsg d ds hd hds⟩
  obtain ⟨st3, hst3, hrun3⟩ := hexpRun
  have hrun : checkValidLoop n.render scanner.reset = some ⟨st3, false, [], false⟩ := by
    unfold JsonNumber.render
    rw [checkValidLoop_append, hrun1, Option.some_bind, checkValidLoop_append, hrun2,
      Option.some_bind, hrun3]
  unfold checkValid
  rw [hrun]
  simp [eof_after_number st3 hst3]

/-! ## encoding/json: the decoder on a number literal -/

theorem isNumChar_of_isDigit (c : Nat) (h : isDigit c = true) : isNumChar c = true := by
  simp only [isDigit, Bool.and_eq_true, decide_eq_true_eq] at h
  simp [isNumChar, h.1, h.2]

theorem all_isNumChar_of_all_isDigit (ds : List Nat) (h : ds.all isDigit = true) :
    ds.all isNumChar = true := by
  rw [List.all_eq_true] at h ⊢
  exact fun x hx => isNumChar_of_isDigit x (h x hx)

/-- Every byte of a well-formed number literal is a number byte. -/
theorem render_all_isNumChar (n : JsonNumber) (h : n.wellFormed = true) :
    n.render.all isNumChar = true := by
  obtain ⟨⟨c, cs, hint, hc, hcs, _⟩, hfrac, hexp⟩ := wellFormed_parts n h
  have h1 : (if n.neg then [45] else []).all isNumChar = true := by
    cases n.neg <;> simp [isNumChar]
  have h2 : n.int.all isNumChar = true := by
    rw [hint]
    exact all_isNumChar_of_all_isDigit (c :: cs) (by simp [hc, hcs])
  have h3 : n.fracBytes.all isNumChar = true := by
    rcases hfrac with hf | ⟨d, ds, hf, hd, hds⟩
    · rw [hf]; rfl
    · rw [hf]
      have := all_isNumChar_of_all_isDigit (d :: ds) (by simp [hd, hds])
      simpa [isNumChar] using this
  have h4 : n.expBytes.all isNumChar = true := by
    rcases hexp with he | ⟨mark, sg, d, ds, he, hm, hsg, hd, hds⟩
    · rw [he]; rfl
    · rw [he]
      have hdig := all_isNumChar_of_all_isDigit (d :: ds) (by simp [hd, hds])
      have hmark : isNumChar mark = true := by
        rcases hm with hm | hm <;> subst hm <;> simp [isNumChar]
      have hsgn : sg.all isNumChar = true := by
        rcases hsg with hsg | hsg | hsg <;> subst hsg <;> simp [isNumChar]
      simp only [List.all_cons, List.all_append, hmark, hsgn, Bool.true_and]
      simpa using hdig
  unfold JsonNumber.render
  simp only [List.all_append, h1, h2, h3, h4, Bool.and_self]

/-- A well-formed number literal begins with `-` or a digit. -/
theorem render_shape (n : JsonNumber) (h : n.wellFormed = true) :
    ∃ c cs, n.render = c :: cs ∧ (c = 45 ∨ (48 ≤ c ∧ c ≤ 57)) ∧ cs.all isNumChar = true := by
  have hall := render_all_isNumChar n h
  obtain ⟨⟨c, cs, hint, hc, _, _⟩, _, _⟩ := wellFormed_parts n h
  have hc2 : 48 ≤ c ∧ c ≤ 57 := by simpa [isDigit] using hc
  unfold JsonNumber.render at hall ⊢
  rw [hint] at hall ⊢
  cases hneg : n.neg
  · rw [hneg] at hall
    refine ⟨c, cs ++ (n.fracBytes ++ n.expBytes), by simp, Or.inr hc2, ?_⟩
    simp only [Bool.false_eq_true, if_false, List.nil_append, List.cons_append,
      List.all_cons, Bool.and_eq_true] at hall
    exact hall.2
  · rw [hneg] at hall
    refine ⟨45, c :: cs ++ (n.fracBytes ++ n.expBytes), by simp, Or.inl rfl, ?_⟩
    simp only [if_true, List.singleton_append, List.cons_append, List.all_cons,
      Bool.and_eq_true] at hall
    simpa using hall.2

theorem numberTokensAux_inNumber (cs cur : List Nat) (h : cs.all isNumChar = true) :
    numberTokensAux cs LexMode.inNumber cur = [cur.reverse ++ cs] := by
  induction cs generalizing cur with
  | nil => simp [numberTokensAux]
  | cons c cs ih =>
    simp only [List.all_cons, Bool.and_eq_true] at h
    simp only [numberTokensAux, h.1, if_true]
    rw [ih (c :: cur) h.2]
    simp

/-- A document that is one number literal has that literal as its only
number token. -/
theorem numberTokens_number (c : Nat) (cs : List Nat) (hc : c = 45 ∨ (48 ≤ c ∧ c ≤ 57))
    (h : cs.all isNumChar = true) : numberTokens (c :: cs) = [c :: cs] := by
  have h34 : c ≠ 34 := by omega
  simp only [numberTokens, numberTokensAux, h34, if_false, if_pos hc]
  rw [numberTokensAux_inNumber cs [c] h]
  simp

theorem takeWhile_of_all (p : Nat → Bool) (cs : List Nat) (h : cs.all p = true) :
    cs.takeWhile p = cs := by
  induction cs with
  | nil => rfl
  | cons c cs ih =>
    simp only [List.all_cons, Bool.and_eq_true] at h
    simp [List.takeWhile, h.1, ih h.2]

/-- The `float64` probe, `json.Unmarshal` into an `interface{}`, on a
well-formed number literal: it fails exactly when `strconv.ParseFloat`
rejects the literal, and otherwise stores a `float64`. -/
theorem unmarshalInterface_render (n : JsonNumber) (h : n.wellFormed = true) :
    unmarshalInterface n.render =
      if parseFloatErr n.render = true then Except.error Error.jsonUnmarshalType
      else Except.ok Kind.float64 := by
  have hvalid := checkValid_render n h
  obtain ⟨c, cs, hr, hc, hcs⟩ := render_shape n h
  have hsp : isSpace c = false := by
    simp only [isSpace, Bool.and_eq_false_iff, Bool.or_eq_false_iff, decide_eq_false_iff_not]
    omega
  have hkind : kindOfByte c = Kind.float64 := by
    have e1 : c ≠ 123 := by omega
    have e2 : c ≠ 91 := by omega
    have e3 : c ≠ 110 := by omega
    have e4 : ¬ (c = 116 ∨ c = 102) := by omega
    have e5 : c ≠ 34 := by omega
    simp [kindOfByte, e1, e2, e3, e4, e5]
  have htok := numberTokens_number c cs hc hcs
  rw [hr] at hvalid
  rw [hr]
  by_cases hf : parseFloatErr (c :: cs) = true
  · simp [unmarshalInterface, hvalid, List.dropWhile, hsp, htok, hf]
  · have hf2 : parseFloatErr (c :: cs) = false := by simpa using hf
    simp [unmarshalInterface, hvalid, List.dropWhile, hsp, htok, hf2, hkind]

/-- The method `UnmarshalJSON` on a well-formed number literal: when the `float64`
probe fails the receiver is returned untouched with the probe's error;
otherwise the literal goes through `ParseInt`, whose failure invalidates the
receiver and whose success stores the value. -/
theorem UnmarshalJSON_render (n : JsonNumber) (h : n.wellFormed = true) (r : NullInt64) :
    r.UnmarshalJSON n.render =
      if parseFloatErr n.render = true then (r, some Error.jsonUnmarshalType)
      else if (ParseInt n.render).2.isSome = true then
        ({ Int64 := r.Int64, Valid := false }, some Error.jsonUnmarshalType)
      else ({ Int64 := (ParseInt n.render).1, Valid := true }, none) := by
  have hvalid := checkValid_render n h
  obtain ⟨c, cs, hr, hc, hcs⟩ := render_shape n h
  have hsp : isSpace c = false := by
    simp only [isSpace, Bool.and_eq_false_iff, Bool.or_eq_false_iff, decide_eq_false_iff_not]
    omega
  have hkind : kindOfByte c = Kind.float64 := by
    have e1 : c ≠ 123 := by omega
    have e2 : c ≠ 91 := by omega
    have e3 : c ≠ 110 := by omega
    have e4 : ¬ (c = 116 ∨ c = 102) := by omega
    have e5 : c ≠ 34 := by omega
    simp [kindOfByte, e1, e2, e3, e4, e5]
  have htok := numberTokens_number c cs hc hcs
  have htake := takeWhile_of_all isNumChar cs hcs
  rw [hr] at hvalid
  rw [hr]
  by_cases hf : parseFloatErr (c :: cs) = true
  · simp [NullInt64.UnmarshalJSON, unmarshalInterface, hvalid, List.dropWhile, hsp, htok, hf]
  · have hf2 : parseFloatErr (c :: cs) = false := by simpa using hf
    by_cases hp : (ParseInt (c :: cs)).2.isSome = true
    · simp [NullInt64.UnmarshalJSON, unmarshalInterface, unmarshalInt64, hvalid, List.dropWhile,
        hsp, htok, hf2, hkind, htake, hp]
    · have hp2 : (ParseInt (c :: cs)).2.isSome = false := by simpa using hp
      have hp3 : (ParseInt (c :: cs)).2 = none := by
        cases hq : (ParseInt (c :: cs)).2 with
        | none => rfl
        | some e => rw [hq] at hp2; simp at hp2
      simp [NullInt64.UnmarshalJSON, unmarshalInterface, unmarshalInt64, hvalid, List.dropWhile,
        hsp, htok, hf2, hkind, htake, hp2, hp3]

set_option exponentiation.threshold 2000 in
theorem two_pow_63_lt_float64Limit : 2 ^ 63 < float64Limit := by decide

/-- The mantissa loop of `readFloat` on a string of digits. -/
theorem readMantissa_digits (ds : List Nat) (m : Nat) (sd : Bool)
    (h : ds.all isDigit = true) :
    readMantissa ds false m 0 sd =
      (ds.foldl (fun n c => n * 10 + (c - 48)) m, 0, sd || !ds.isEmpty, []) := by
  induction ds generalizing m sd with
  | nil => simp [readMantissa]
  | cons c cs ih =>
    simp only [List.all_cons, Bool.and_eq_true, isDigit, decide_eq_true_eq] at h
    have hc : 48 ≤ c ∧ c ≤ 57 := h.1
    have h46 : c ≠ 46 := by omega
    simp only [readMantissa, h46, if_false, if_pos hc, List.foldl_cons, Bool.false_eq_true]
    rw [ih _ _ (by simpa [isDigit] using h.2)]
    simp

/-- The `float64` probe accepts a plain integer literal of at most 2^63. -/
theorem parseFloatErr_plain (neg : Bool) (c : Nat) (cs : List Nat) (hc : isDigit c = true)
    (hcs : cs.all isDigit = true) (hv : digitsValue (c :: cs) ≤ 2 ^ 63) :
    parseFloatErr ((if neg then [45] else []) ++ c :: cs) = false := by
  have hc2 : 48 ≤ c ∧ c ≤ 57 := by simpa [isDigit] using hc
  have hall : (c :: cs).all isDigit = true := by simp [hc, hcs]
  have hm := readMantissa_digits (c :: cs) 0 false hall
  have hval : List.foldl (fun n c => n * 10 + (c - 48)) 0 (c :: cs) = digitsValue (c :: cs) := rfl
  rw [hval] at hm
  have hsmall : ¬ (digitsValue (c :: cs) * 10 ^ 0 ≥ float64Limit) := by
    have hlim := two_pow_63_lt_float64Limit
    omega
  have hbody : parseFloatErr ((if neg then [45] else []) ++ c :: cs) =
      (let m := readMantissa (c :: cs) false 0 0 false
       if !m.2.2.1 then true
       else
         match readExponent m.2.2.2 with
         | none => true
         | some (e, rest) =>
           if rest ≠ [] then true else floatOverflows m.1 (e - (m.2.1 : Int))) := by
    cases neg
    · have h1 : ¬ (c = 43 ∨ c = 45) := by omega
      simp only [parseFloatErr, Bool.false_eq_true, if_false, List.nil_append, h1]
    · simp [parseFloatErr]
  rw [hbody, hm]
  simp only [List.isEmpty_cons, Bool.not_false, Bool.or_true, Bool.not_true, Bool.false_eq_true,
    if_false, readExponent, ne_eq, not_true_eq_false, floatOverflows]
  simpa using hsmall

/-- The function `ParseInt` fails on a text with a byte that is not a digit after its
first byte. -/
theorem ParseInt_err_of_nondigit (c x : Nat) (pre post : List Nat) (hx : isDigit x = false) :
    (ParseInt (c :: (pre ++ x :: post))).2.isSome = true := by
  cases hq : (ParseInt (c :: (pre ++ x :: post))).2 with
  | some e => rfl
  | none =>
    exfalso
    have hp : ParseInt (c :: (pre ++ x :: post)) =
        ((ParseInt (c :: (pre ++ x :: post))).1, none) := by
      rw [← hq]
    obtain ⟨hd, _⟩ := ParseInt_ok _ _ hp
    simp only [decimalLiteral, List.all_cons, List.all_append, Bool.and_eq_true, hx] at hd
    split_ifs at hd <;> rename_i hh <;> exact hh.2.2.1

/-- The method `UnmarshalJSON` on a number literal in plain integer notation whose value
is in the `int64` range: no error, and the receiver is valid with that value. -/
theorem UnmarshalJSON_plain (n : JsonNumber) (h : n.wellFormed = true)
    (hf : n.frac = none) (he : n.exp = none) (hv : IsInt64 n.signedMantissa) (r : NullInt64) :
    r.UnmarshalJSON n.render = ({ Int64 := n.signedMantissa, Valid := true }, none) := by
  obtain ⟨⟨c, cs, hint, hc, hcs, _⟩, _, _⟩ := wellFormed_parts n h
  have hrender : n.render = (if n.neg then [45] else []) ++ c :: cs := by
    simp [JsonNumber.render, JsonNumber.fracBytes, JsonNumber.expBytes, hf, he, hint]
  have hmant : n.signedMantissa =
      if n.neg then -(digitsValue (c :: cs) : Int) else (digitsValue (c :: cs) : Int) := by
    simp [JsonNumber.signedMantissa, hf, hint]
  obtain ⟨hv1, hv2⟩ := hv
  rw [hmant] at hv1 hv2
  have hle : digitsValue (c :: cs) ≤ 2 ^ 63 := by
    cases hneg : n.neg <;> rw [hneg] at hv1 hv2 <;> norm_num at hv1 hv2 ⊢ <;> omega
  have hprobe : parseFloatErr n.render = false := by
    rw [hrender]; exact parseFloatErr_plain n.neg c cs hc hcs hle
  have hparse : ParseInt n.render = (n.signedMantissa, none) := by
    rw [hrender, hmant]
    cases hneg : n.neg
    · rw [hneg] at hv2
      have hlt : digitsValue (c :: cs) < 2 ^ 63 := by
        norm_num at hv2 ⊢; omega
      simpa using ParseInt_digits c cs hc hcs hlt
    · simpa using ParseInt_neg_digits c cs hc hcs hle
  rw [UnmarshalJSON_render n h r, hprobe, hparse]
  simp

/-- The function `ParseInt` fails on a number literal that has a fraction part or an
exponent part. -/
theorem ParseInt_render_notPlain (n : JsonNumber) (h : n.wellFormed = true)
    (hne : n.frac ≠ none ∨ n.exp ≠ none) : (ParseInt n.render).2.isSome = true := by
  obtain ⟨⟨c, cs, hint, _, _, _⟩, hfrac, hexp⟩ := wellFormed_parts n h
  have htail : ∃ x post, n.fracBytes ++ n.expBytes = x :: post ∧ isDigit x = false := by
    rcases hfrac with hf | ⟨d, ds, hf, _, _⟩
    · rcases hexp with he | ⟨mark, sg, d, ds, he, hm, _, _, _⟩
      · exfalso
        rcases hne with h1 | h1
        · cases hfr : n.frac with
          | none => exact h1 hfr
          | some ds => simp [JsonNumber.fracBytes, hfr] at hf
        · cases hex : n.exp with
          | none => exact h1 hex
          | some e => simp [JsonNumber.expBytes, hex] at he
      · refine ⟨mark, sg ++ d :: ds, by rw [hf, he]; rfl, ?_⟩
        rcases hm with hm | hm <;> subst hm <;> rfl
    · exact ⟨46, (d :: ds) ++ n.expBytes, by rw [hf]; rfl, rfl⟩
  obtain ⟨x, post, hxp, hx⟩ := htail
  unfold JsonNumber.render
  rw [hxp, hint]
  cases n.neg
  · simpa using ParseInt_err_of_nondigit c x cs post hx
  · simpa using ParseInt_err_of_nondigit 45 x (c :: cs) post hx

/-- A literal in plain integer notation denotes the integer that its digits
write. -/
theorem denotes_plain (n : JsonNumber) (hf : n.frac = none) (he : n.exp = none) (v : Int) :
    n.denotes v ↔ v = n.signedMantissa := by
  simp [JsonNumber.denotes, JsonNumber.exp10, hf, he]

/-! ## NullInt64: the JSON encoding -/

/-- C2: for every int64 `x`, also beyond 2^53 in magnitude, and every
receiver `r`, `MarshalJSON` of `NewNullInt64(x)` returns no error and
`r.UnmarshalJSON` on the returned bytes returns no error and leaves `r` valid
with value exactly `x`. -/
theorem C2_json_round_trip (x : Int) (hx : IsInt64 x) (r : NullInt64) :
    (NewNullInt64 x).MarshalJSON.2 = none ∧
      r.UnmarshalJSON (NewNullInt64 x).MarshalJSON.1 = ({ Int64 := x, Valid := true }, none) := by
  obtain ⟨c, cs, e1, e2, e3, e4, e5⟩ := FormatInt_spec x hx
  have hwf : (JsonNumber.mk (decide (x < 0)) (c :: cs) none none).wellFormed = true := by
    simp only [JsonNumber.wellFormed, e2, e3, Bool.and_true, Bool.true_and, Bool.or_eq_true,
      decide_eq_true_eq, List.isEmpty_iff]
    by_cases hc : c = 48
    · exact Or.inr (e5 hc)
    · exact Or.inl hc
  have hrender : (JsonNumber.mk (decide (x < 0)) (c :: cs) none none).render = FormatInt x := by
    rw [e1]
    simp [JsonNumber.render, JsonNumber.fracBytes, JsonNumber.expBytes]
  have hmant : (JsonNumber.mk (decide (x < 0)) (c :: cs) none none).signedMantissa = x := by
    simp only [JsonNumber.signedMantissa, Option.getD_none, List.append_nil, decide_eq_true_eq, e4]
    split_ifs <;> omega
  have hmain := UnmarshalJSON_plain (JsonNumber.mk (decide (x < 0)) (c :: cs) none none) hwf rfl rfl
    (by rw [hmant]; exact hx) r
  rw [hrender, hmant] at hmain
  simp [NewNullInt64, NullInt64.MarshalJSON, hmain]

/-- The round trip of C2 at 2^53 + 1, which no `float64` represents. -/
theorem C2_json_round_trip_witness :
    IsInt64 9007199254740993 ∧
      ((NewNullInt64 9007199254740993).MarshalJSON.2 = none ∧
        (NullInt64.mk 7 false).UnmarshalJSON (NewNullInt64 9007199254740993).MarshalJSON.1 =
          ({ Int64 := 9007199254740993, Valid := true }, none)) :=
  ⟨by unfold IsInt64; norm_num,
    C2_json_round_trip 9007199254740993 (by unfold IsInt64; norm_num) (NullInt64.mk 7 false)⟩

set_option maxRecDepth 100000 in
set_option exponentiation.threshold 2000 in
/-- C6 as stated fails: the literal `1` followed by 400 zeros and `.5` is a
JSON number with a non-zero fractional part, which `strconv.ParseFloat`
rejects as out of range; `UnmarshalJSON` on a valid receiver returns with the
error of the `float64` probe and leaves the receiver valid, holding its old
value. -/
theorem C6_counterexample :
    literalHugeFraction.wellFormed = true ∧
      ¬ literalHugeFraction.IsIntegral ∧
      (NullInt64.mk 7 true).UnmarshalJSON literalHugeFraction.render =
        (NullInt64.mk 7 true, some Error.jsonUnmarshalType) := by
  have hwf : literalHugeFraction.wellFormed = true := by decide
  have hprobe : parseFloatErr literalHugeFraction.render = true := by decide
  have hexp : literalHugeFraction.exp10 = -1 := by decide
  have hmod : digitsValue (literalHugeFraction.int ++ literalHugeFraction.frac.getD []) % 10 = 5 := by
    decide
  have hneg : literalHugeFraction.neg = false := rfl
  refine ⟨hwf, ?_, ?_⟩
  · rintro ⟨v, hv⟩
    simp only [JsonNumber.denotes, hexp, JsonNumber.signedMantissa, hneg] at hv
    norm_num at hv
    omega
  · rw [UnmarshalJSON_render literalHugeFraction hwf, hprobe]
    simp

/-- C6, amended: for every JSON number literal with a non-zero fractional
part, `UnmarshalJSON` on any receiver returns a non-nil error.  When
`strconv.ParseFloat` accepts the literal, the `float64` probe succeeds and
the receiver is left invalid (its stored value untouched); when
`strconv.ParseFloat` rejects the literal, the probe fails and the receiver is
left unchanged, validity flag and value. -/
theorem C6_fractional_number_rejected (n : JsonNumber) (h : n.wellFormed = true)
    (hfrac : ¬ n.IsIntegral) (r : NullInt64) :
    (r.UnmarshalJSON n.render).2 ≠ none ∧
      (parseFloatErr n.render = false →
        unmarshalInterface n.render = Except.ok Kind.float64 ∧
          r.UnmarshalJSON n.render =
            ({ Int64 := r.Int64, Valid := false }, some Error.jsonUnmarshalType)) ∧
      (parseFloatErr n.render = true →
        unmarshalInterface n.render = Except.error Error.jsonUnmarshalType ∧
          r.UnmarshalJSON n.render = (r, some Error.jsonUnmarshalType)) := by
  have hne : n.frac ≠ none ∨ n.exp ≠ none := by
    by_contra hcon
    push_neg at hcon
    exact hfrac ⟨n.signedMantissa, (denotes_plain n hcon.1 hcon.2 _).2 rfl⟩
  have hparse := ParseInt_render_notPlain n h hne
  rw [UnmarshalJSON_render n h r, unmarshalInterface_render n h, hparse]
  by_cases hp : parseFloatErr n.render = true
  · simp [hp]
  · have hp2 : parseFloatErr n.render = false := by simpa using hp
    simp [hp2]

set_option maxRecDepth 100000 in
set_option exponentiation.threshold 2000 in
/-- C6, amended, at the literal `3.14` and a receiver that was valid. -/
theorem C6_fractional_number_rejected_witness :
    literalPi.wellFormed = true ∧ ¬ literalPi.IsIntegral ∧
      parseFloatErr literalPi.render = false ∧
      ((NullInt64.mk 7 true).UnmarshalJSON literalPi.render).2 ≠ none ∧
      (NullInt64.mk 7 true).UnmarshalJSON literalPi.render =
        (NullInt64.mk 7 false, some Error.jsonUnmarshalType) := by
  have hwf : literalPi.wellFormed = true := by decide
  have hprobe : parseFloatErr literalPi.render = false := by decide
  have hnot : ¬ literalPi.IsIntegral := by
    rintro ⟨v, hv⟩
    have hexp : literalPi.exp10 = -2 := by decide
    have hm : literalPi.signedMantissa = 314 := by decide
    simp only [JsonNumber.denotes, hexp, hm] at hv
    norm_num at hv
    change v * 10 ^ 2 = 314 at hv
    omega
  have hmain := C6_fractional_number_rejected literalPi hwf hnot (NullInt64.mk 7 true)
  exact ⟨hwf, hnot, hprobe, hmain.1, (hmain.2.1 hprobe).2⟩

set_option maxRecDepth 100000 in
set_option exponentiation.threshold 2000 in
/-- C7 as stated fails: `1.0` is a syntactically valid JSON number whose
value is the integer 1, inside the int64 range, yet `UnmarshalJSON` returns
an error and leaves the receiver invalid. -/
theorem C7_counterexample :
    literalOnePointZero.wellFormed = true ∧ checkValid literalOnePointZero.render = true ∧
      literalOnePointZero.denotes 1 ∧ IsInt64 1 ∧
      (NullInt64.mk 0 true).UnmarshalJSON literalOnePointZero.render =
        (NullInt64.mk 0 false, some Error.jsonUnmarshalType) := by
  have hwf : literalOnePointZero.wellFormed = true := by decide
  have hprobe : parseFloatErr literalOnePointZero.render = false := by decide
  have hparse : (ParseInt literalOnePointZero.render).2.isSome = true := by decide
  refine ⟨hwf, checkValid_render _ hwf, by decide, by unfold IsInt64; norm_num, ?_⟩
  rw [UnmarshalJSON_render literalOnePointZero hwf, hprobe, hparse]
  simp

/-- C7, amended: for every syntactically valid JSON number written in plain
integer notation (an optional minus sign and digits, without fraction or
exponent part) whose value is an integer within the int64 range,
`UnmarshalJSON` on any receiver returns no error and leaves the receiver
valid holding that integer. -/
theorem C7_plain_integer_accepted (n : JsonNumber) (h : n.wellFormed = true)
    (hf : n.frac = none) (he : n.exp = none) (v : Int) (hd : n.denotes v) (hv : IsInt64 v)
    (r : NullInt64) :
    r.UnmarshalJSON n.render = ({ Int64 := v, Valid := true }, none) := by
  have hval : v = n.signedMantissa := (denotes_plain n hf he v).1 hd
  subst hval
  exact UnmarshalJSON_plain n h hf he hv r

/-- C7, amended, at the literal `-42` and an invalid receiver. -/
theorem C7_plain_integer_accepted_witness :
    literalMinus42.wellFormed = true ∧ literalMinus42.denotes (-42) ∧ IsInt64 (-42) ∧
      (NullInt64.mk 7 false).UnmarshalJSON literalMinus42.render =
        ({ Int64 := -42, Valid := true }, none) :=
  ⟨by decide, by decide, by unfold IsInt64; norm_num,
    C7_plain_integer_accepted literalMinus42 (by decide) rfl rfl (-42) (by decide)
      (by unfold IsInt64; norm_num) (NullInt64.mk 7 false)⟩

/-- C8: for every invalid NullInt64 `n`, `MarshalText` returns the empty
byte string and `MarshalJSON` returns the bytes `null`, both without error;
and for every receiver `r`, `UnmarshalText` of the empty string and
`UnmarshalJSON` of `null` return no error and leave `r` invalid. -/
theorem C8_invalid_state_lossless (n : NullInt64) (hn : n.Valid = false) (r : NullInt64) :
    n.MarshalText = ([], none) ∧ n.MarshalJSON = (nullBytes, none) ∧
      (r.UnmarshalText n.MarshalText.1).2 = none ∧
      (r.UnmarshalText n.MarshalText.1).1.Valid = false ∧
      (r.UnmarshalJSON n.MarshalJSON.1).2 = none ∧
      (r.UnmarshalJSON n.MarshalJSON.1).1.Valid = false := by
  have hprobe : unmarshalInterface nullBytes = Except.ok Kind.null := rfl
  simp [NullInt64.MarshalText, NullInt64.MarshalJSON, NullInt64.UnmarshalText,
    NullInt64.UnmarshalJSON, hn, hprobe]

/-- C8 at an invalid value that still carries a stored number, decoded into
a receiver that was valid. -/
theorem C8_invalid_state_lossless_witness :
    (NullInt64.mk 42 false).Valid = false ∧
      (NullInt64.mk 42 false).MarshalText = ([], none) ∧
      (NullInt64.mk 42 false).MarshalJSON = (nullBytes, none) ∧
      ((NullInt64.mk 7 true).UnmarshalText (NullInt64.mk 42 false).MarshalText.1).2 = none ∧
      ((NullInt64.mk 7 true).UnmarshalText (NullInt64.mk 42 false).MarshalText.1).1.Valid = false ∧
      ((NullInt64.mk 7 true).UnmarshalJSON (NullInt64.mk 42 false).MarshalJSON.1).2 = none ∧
      ((NullInt64.mk 7 true).UnmarshalJSON (NullInt64.mk 42 false).MarshalJSON.1).1.Valid = false :=
  ⟨rfl, C8_invalid_state_lossless (NullInt64.mk 42 false) rfl (NullInt64.mk 7 true)⟩

/-! ## The in-memory connector -/

/-- C10: for every connector state and every entity info with a non-nil
`Ref` and a non-empty `EntityName`, `CreateIfNotExists(values)` returns nil
and afterwards the row sequence stored under that entity name is the previous
sequence (empty if the name was absent) with `values` appended once at the
end, so the row count grows by exactly one; no key-uniqueness check is made.
The rows of every other entity name are as before. -/
theorem C10_createIfNotExists_appends {Row : Type} (c : Connector Row) (ref : SchemaRef)
    (values : Row) (hname : ref.EntityName ≠ "") :
    (c.CreateIfNotExists ⟨some ref⟩ values).2 = none ∧
      (c.CreateIfNotExists ⟨some ref⟩ values).1.idx ref.EntityName =
        some ((c.idx ref.EntityName).getD [] ++ [values]) ∧
      (((c.CreateIfNotExists ⟨some ref⟩ values).1.idx ref.EntityName).getD []).length =
        ((c.idx ref.EntityName).getD []).length + 1 ∧
      ∀ k, k ≠ ref.EntityName → (c.CreateIfNotExists ⟨some ref⟩ values).1.idx k = c.idx k := by
  unfold Connector.CreateIfNotExists
  simp only [if_neg hname]
  cases hidx : c.idx ref.EntityName with
  | none =>
    refine ⟨rfl, by simp [Connector.store], by simp [Connector.store], ?_⟩
    intro k hk
    simp [Connector.store, hk]
  | some v =>
    refine ⟨rfl, by simp [Connector.store], by simp [Connector.store], ?_⟩
    intro k hk
    simp [Connector.store, hk]

/-- C10 on a connector that already stores an equal row under the name: the
row is stored a second time. -/
theorem C10_createIfNotExists_appends_witness :
    (SchemaRef.mk "testScope" "testPrefix" "testEntityName").EntityName ≠ "" ∧
      (((NewConnector Nat).store "testEntityName" [5]).CreateIfNotExists
        ⟨some (SchemaRef.mk "testScope" "testPrefix" "testEntityName")⟩ 5).2 = none ∧
      (((NewConnector Nat).store "testEntityName" [5]).CreateIfNotExists
        ⟨some (SchemaRef.mk "testScope" "testPrefix" "testEntityName")⟩ 5).1.idx "testEntityName" =
        some [5, 5] := by
  have h := C10_createIfNotExists_appends ((NewConnector Nat).store "testEntityName" [5])
    (SchemaRef.mk "testScope" "testPrefix" "testEntityName") 5 (by decide)
  refine ⟨by decide, h.1, ?_⟩
  rw [h.2.1]
  simp [Connector.store]

/-- The index after `CreateIfNotExists` with a valid entity info: the entry
of the entity name is its old rows followed by the new row, every other entry
is as before. -/
theorem CreateIfNotExists_idx {Row : Type} (c : Connector Row) (ref : SchemaRef) (values : Row)
    (hname : ref.EntityName ≠ "") (k : String) :
    (c.CreateIfNotExists ⟨some ref⟩ values).1.idx k =
      if k = ref.EntityName then some ((c.idx ref.EntityName).getD [] ++ [values])
      else c.idx k := by
  unfold Connector.CreateIfNotExists
  simp only [if_neg hname]
  cases hidx : c.idx ref.EntityName with
  | none => by_cases hk : k = ref.EntityName <;> simp [Connector.store, hk]
  | some v => by_cases hk : k = ref.EntityName <;> simp [Connector.store, hk]

theorem createdFor_append {Row : Type} (name : String) (a b : List (EntityInfo × Row)) :
    createdFor name (a ++ b) = createdFor name a ++ createdFor name b := by
  induction a with
  | nil => rfl
  | cons call rest ih =>
    simp only [List.cons_append, createdFor]
    cases call.1.Ref with
    | none => exact ih
    | some ref =>
      by_cases h : ref.EntityName = name
      · simp [h, ih]
      · simp [h, ih]

/-- The index entry of an entity name after a run of `CreateIfNotExists`
calls: the old rows followed by the rows created for the name, in order. -/
theorem createAll_idx {Row : Type} (ops : List (EntityInfo × Row)) (c : Connector Row)
    (name : String) (hname : name ≠ "") :
    (c.createAll ops).idx name =
      if (createdFor name ops).isEmpty = true then c.idx name
      else some ((c.idx name).getD [] ++ createdFor name ops) := by
  induction ops generalizing c with
  | nil => simp [Connector.createAll, createdFor]
  | cons call rest ih =>
    obtain ⟨ei, values⟩ := call
    obtain ⟨r⟩ := ei
    cases r with
    | none =>
      simp only [Connector.createAll, createdFor]
      exact ih c
    | some ref =>
      by_cases hr : ref.EntityName = ""
      · have hne : ¬ ref.EntityName = name := by
          intro h; exact hname (h ▸ hr)
        have hsame : (c.CreateIfNotExists ⟨some ref⟩ values).1 = c := by
          simp [Connector.CreateIfNotExists, hr]
        simp only [Connector.createAll, createdFor, hsame, if_neg hne]
        exact ih c
      · simp only [Connector.createAll, createdFor]
        rw [ih (c.CreateIfNotExists ⟨some ref⟩ values).1, CreateIfNotExists_idx c ref values hr name]
        by_cases hn : ref.EntityName = name
        · have hn2 : name = ref.EntityName := hn.symm
          simp only [if_pos hn, if_pos hn2]
          subst hn2
          cases hrest : createdFor ref.EntityName rest <;> simp
        · have hn2 : ¬ name = ref.EntityName := fun h => hn h.symm
          simp only [if_neg hn, if_neg hn2]

/-- C11: for every entity name with at least one created row, `Read` returns
with a nil error the first row ever created for that entity, for every keys
map and every list of fields to read, also after further rows have been
created. -/
theorem C11_read_returns_first_created {Row : Type} (ops later : List (EntityInfo × Row))
    (ref : SchemaRef) (hname : ref.EntityName ≠ "") (row : Row) (rest : List Row)
    (hfirst : createdFor ref.EntityName ops = row :: rest) (keys : Row) (fields : List String) :
    (((NewConnector Row).createAll (ops ++ later)).Read ⟨some ref⟩ keys fields).2 =
      Outcome.returned (some row, none) := by
  have hidx := createAll_idx (ops ++ later) (NewConnector Row) ref.EntityName hname
  rw [createdFor_append, hfirst] at hidx
  have hnone : (NewConnector Row).idx ref.EntityName = none := rfl
  simp only [List.cons_append, List.isEmpty_cons, Bool.false_eq_true, if_false, hnone,
    Option.getD_none, List.nil_append] at hidx
  simp [Connector.Read, hname, hidx]

/-- C11 with two rows created before the read and one after: the first is
returned. -/
theorem C11_read_returns_first_created_witness :
    testInfo.Ref = some ⟨"testScope", "testPrefix", "testEntityName"⟩ ∧
      createdFor "testEntityName"
        [(testInfo, ([("uuid", 1)] : TestRow)), (testInfo, [("uuid", 2)])] =
        [[("uuid", 1)], [("uuid", 2)]] ∧
      (((NewConnector TestRow).createAll
        ([(testInfo, [("uuid", 1)]), (testInfo, [("uuid", 2)])] ++
          [(testInfo, [("uuid", 3)])])).Read
        ⟨some ⟨"testScope", "testPrefix", "testEntityName"⟩⟩ [("uuid", 9)] fieldsToRead).2 =
        Outcome.returned (some [("uuid", 1)], none) :=
  ⟨rfl, by decide,
    C11_read_returns_first_created
      [(testInfo, ([("uuid", 1)] : TestRow)), (testInfo, [("uuid", 2)])]
      [(testInfo, [("uuid", 3)])] ⟨"testScope", "testPrefix", "testEntityName"⟩ (by decide)
      [("uuid", 1)] [[("uuid", 2)]] (by decide) [("uuid", 9)] fieldsToRead⟩

/-- C12, the code at the failing input: on a freshly constructed connector,
`Read` with the valid entity info of the tests does not return; it panics on
the index `[0]` of the missing row sequence. -/
theorem C12_read_absent_panics :
    ((NewConnector TestRow).Read testInfo testValues fieldsToRead).2 = Outcome.panicked := by
  rfl

/-- C13: for every connector state and every entity info whose `Ref` is nil
or whose `EntityName` is empty, `CreateIfNotExists` and `Read` both return
the error "invalid entity info", `Read` returns no row, and the connector is
left unchanged. -/
theorem C13_invalid_entity_info {Row : Type} (c : Connector Row) (ei : EntityInfo)
    (hinv : ∀ ref, ei.Ref = some ref → ref.EntityName = "") (values keys : Row)
    (fields : List String) :
    c.CreateIfNotExists ei values = (c, some Error.invalidEntityInfo) ∧
      c.Read ei keys fields = (c, Outcome.returned (none, some Error.invalidEntityInfo)) := by
  obtain ⟨r⟩ := ei
  cases r with
  | none => exact ⟨rfl, rfl⟩
  | some ref =>
    have h := hinv ref rfl
    simp [Connector.CreateIfNotExists, Connector.Read, h]

/-- C13 at an entity info with an empty entity name, on a connector that
stores a row. -/
theorem C13_invalid_entity_info_witness :
    (∀ ref, (EntityInfo.mk (some ⟨"testScope", "testPrefix", ""⟩)).Ref = some ref →
        ref.EntityName = "") ∧
      (((NewConnector TestRow).store "testEntityName" [[("uuid", 1)]]).CreateIfNotExists
          ⟨some ⟨"testScope", "testPrefix", ""⟩⟩ testValues =
        ((NewConnector TestRow).store "testEntityName" [[("uuid", 1)]],
          some Error.invalidEntityInfo) ∧
      ((NewConnector TestRow).store "testEntityName" [[("uuid", 1)]]).Read
          ⟨some ⟨"testScope", "testPrefix", ""⟩⟩ testValues fieldsToRead =
        ((NewConnector TestRow).store "testEntityName" [[("uuid", 1)]],
          Outcome.returned (none, some Error.invalidEntityInfo))) :=
  ⟨by intro ref h; cases h; rfl,
    C13_invalid_entity_info ((NewConnector TestRow).store "testEntityName" [[("uuid", 1)]])
      ⟨some ⟨"testScope", "testPrefix", ""⟩⟩ (by intro ref h; cases h; rfl) testValues testValues
      fieldsToRead⟩

/-- C14, the code at the failing input: `Upsert` of the row
`{ID: 7, Total: 500}` returns the error "not implemented" and writes nothing,
on a fresh connector and on one that already holds a row of the entity; the
`Read` that follows does not yield the row (on the fresh connector it even
panics). -/
theorem C14_upsert_not_implemented :
    (NewConnector TestRow).Upsert testInfo [("ID", 7), ("Total", 500)] =
        (NewConnector TestRow, some Error.notImplemented) ∧
      (((NewConnector TestRow).Upsert testInfo [("ID", 7), ("Total", 500)]).1.Read testInfo
        [("ID", 7)] ["Total"]).2 = Outcome.panicked ∧
      (((NewConnector TestRow).CreateIfNotExists testInfo testValues).1.Upsert testInfo
        [("ID", 7), ("Total", 500)]).2 = some Error.notImplemented ∧
      ((((NewConnector TestRow).CreateIfNotExists testInfo testValues).1.Upsert testInfo
        [("ID", 7), ("Total", 500)]).1.Read testInfo [("ID", 7)] ["Total"]).2 =
        Outcome.returned (some testValues, none) := by
  refine ⟨rfl, rfl, rfl, ?_⟩
  simp [Connector.Upsert, Connector.CreateIfNotExists, Connector.Read, Connector.store, testInfo,
    NewConnector]

/-- C15, the code at the failing input: `Remove` returns the error
"not implemented", on a fresh connector (no row with that key is stored) and
on one that holds a row of the entity, and leaves the connector as it was. -/
theorem C15_remove_not_implemented :
    (NewConnector TestRow).Remove testInfo testValues =
        (NewConnector TestRow, some Error.notImplemented) ∧
      ((NewConnector TestRow).CreateIfNotExists testInfo testValues).1.Remove testInfo testValues =
        (((NewConnector TestRow).CreateIfNotExists testInfo testValues).1,
          some Error.notImplemented) :=
  ⟨rfl, rfl⟩

/-- C16: for every state and every input, each of `MultiRead`, `MultiUpsert`,
`MultiRemove`, `Range`, `Search` and `Scan` returns a non-nil top-level error
and leaves the connector unchanged; the three batch operations return a
non-nil per-row collection. -/
theorem C16_batch_and_scan_fail {Row Cond Pair : Type} (c : Connector Row) (ei : EntityInfo)
    (rows : List Row) (fields : List String) (conds : Cond) (pairs : Pair) (token : String)
    (limit : Int) :
    ((c.MultiRead ei rows fields).2.2 ≠ none ∧ (c.MultiRead ei rows fields).1 = c ∧
        (c.MultiRead ei rows fields).2.1 ≠ none) ∧
      ((c.MultiUpsert ei rows).2.2 ≠ none ∧ (c.MultiUpsert ei rows).1 = c ∧
        (c.MultiUpsert ei rows).2.1 ≠ none) ∧
      ((c.MultiRemove ei rows).2.2 ≠ none ∧ (c.MultiRemove ei rows).1 = c ∧
        (c.MultiRemove ei rows).2.1 ≠ none) ∧
      ((c.Range ei conds fields token limit).2.2.2 ≠ none ∧
        (c.Range ei conds fields token limit).1 = c) ∧
      ((c.Search ei pairs fields token limit).2.2.2 ≠ none ∧
        (c.Search ei pairs fields token limit).1 = c) ∧
      ((c.Scan ei fields token limit).2.2.2 ≠ none ∧ (c.Scan ei fields token limit).1 = c) := by
  simp [Connector.MultiRead, Connector.MultiUpsert, Connector.MultiRemove, Connector.Range,
    Connector.Search, Connector.Scan]

/-- C17 as stated fails: on the 50 rows of the tests the collections returned
by `MultiRead`, `MultiUpsert` and `MultiRemove` do not have length 50, and on
an empty input they do not have length 0. -/
theorem C17_counterexample :
    testMultiValues.length = 50 ∧
      (((NewConnector TestRow).MultiRead testInfo testMultiValues fieldsToRead).2.1.getD []).length ≠
        testMultiValues.length ∧
      (((NewConnector TestRow).MultiUpsert testInfo testMultiValues).2.1.getD []).length ≠
        testMultiValues.length ∧
      (((NewConnector TestRow).MultiRemove testInfo testMultiValues).2.1.getD []).length ≠
        testMultiValues.length ∧
      (((NewConnector TestRow).MultiRead testInfo [] fieldsToRead).2.1.getD []).length ≠ 0 := by
  simp [testMultiValues, Connector.MultiRead, Connector.MultiUpsert, Connector.MultiRemove]

/-- C17, amended: for every input list of rows, whatever its length, the
per-position collection returned by `MultiRead`, by `MultiUpsert` and by
`MultiRemove` has length exactly 1. -/
theorem C17_batch_collection_length_one {Row : Type} (c : Connector Row) (ei : EntityInfo)
    (rows : List Row) (fields : List String) :
    ((c.MultiRead ei rows fields).2.1.getD []).length = 1 ∧
      ((c.MultiUpsert ei rows).2.1.getD []).length = 1 ∧
      ((c.MultiRemove ei rows).2.1.getD []).length = 1 := by
  simp [Connector.MultiRead, Connector.MultiUpsert, Connector.MultiRemove]

/-- C18, the code at the failing input: after a row has been created for the
entity of the tests, `Range`, `Search` and `Scan` return the nil list and the
error "not implemented". -/
theorem C18_range_not_implemented :
    (((NewConnector TestRow).CreateIfNotExists testInfo testValues).1.Range testInfo ()
        fieldsToRead "" 32).2 = (none, "", some Error.notImplemented) ∧
      (((NewConnector TestRow).CreateIfNotExists testInfo testValues).1.Search testInfo ()
        fieldsToRead "" 32).2 = (none, "", some Error.notImplemented) ∧
      (((NewConnector TestRow).CreateIfNotExists testInfo testValues).1.Scan testInfo
        fieldsToRead "" 32).2 = (none, "", some Error.notImplemented) :=
  ⟨rfl, rfl, rfl⟩

/-- C19, the code at the failing input: `CheckSchemaStatus` with the
requested version 2 returns a status with `Version` 2, not the constant 1
that `CheckSchema` and `UpsertSchema` return; in general it returns the
requested version. -/
theorem C19_checkSchemaStatus_echoes_version :
    (NewConnector TestRow).CheckSchemaStatus "testScope" "testPrefix" 2 =
        (some { Version := 2, Status := "APPLIED" }, none) ∧
      (NewConnector TestRow).CheckSchema "testScope" "testPrefix" ([] : List Unit) = (1, none) ∧
      (NewConnector TestRow).UpsertSchema "testScope" "testPrefix" ([] : List Unit) =
        (some { Version := 1, Status := "APPLIED" }, none) ∧
      ∀ (c : Connector TestRow) (scope namePrefix : String) (v : Int),
        c.CheckSchemaStatus scope namePrefix v = (some { Version := v, Status := "APPLIED" }, none) :=
  ⟨rfl, rfl, rfl, fun _ _ _ _ => rfl⟩

/-- C20 as stated fails: on a connector that has been shut down,
`CreateIfNotExists` with a valid entity info returns nil and stores the row,
and the `Read` that follows returns that row with a nil error. -/
theorem C20_counterexample :
    (NewConnector TestRow).Shutdown.2 = none ∧
      ((NewConnector TestRow).Shutdown.1.CreateIfNotExists testInfo [("uuid", 1)]).2 = none ∧
      ((NewConnector TestRow).Shutdown.1.CreateIfNotExists testInfo [("uuid", 1)]).1.idx
        "testEntityName" = some [[("uuid", 1)]] ∧
      (((NewConnector TestRow).Shutdown.1.CreateIfNotExists testInfo [("uuid", 1)]).1.Read
        testInfo testValues fieldsToRead).2 = Outcome.returned (some [("uuid", 1)], none) := by
  refine ⟨rfl, rfl, ?_, ?_⟩ <;>
    simp [Connector.Shutdown, Connector.CreateIfNotExists, Connector.Read, Connector.store,
      testInfo, NewConnector]

/-- C20, amended: for every in-memory connector, `Shutdown()` returns nil and
leaves the connector as it was, so every data operation that follows behaves
exactly as it would without the `Shutdown`. -/
theorem C20_shutdown_is_noop {Row : Type} (c : Connector Row) (ei : EntityInfo)
    (values keys : Row) (fields : List String) :
    c.Shutdown = (c, none) ∧
      c.Shutdown.1.CreateIfNotExists ei values = c.CreateIfNotExists ei values ∧
      c.Shutdown.1.Read ei keys fields = c.Read ei keys fields ∧
      c.Shutdown.1.Upsert ei values = c.Upsert ei values ∧
      c.Shutdown.1.Remove ei keys = c.Remove ei keys :=
  ⟨rfl, rfl, rfl, rfl, rfl⟩

/-! ## The registry -/

theorem foldl_append_values {FQN RE : Type} (visit : List (Sigma (fun _ : FQN => RE)))
    (acc : List RE) :
    visit.foldl (fun res entry => res ++ [entry.2]) acc = acc ++ visit.map (fun entry => entry.2) := by
  induction visit generalizing acc with
  | nil => simp
  | cons e rest ih => simp [ih]

/-- C21: for every registrar, whatever the order in which the map is walked,
`FindAll` returns a non-nil error and no list exactly when the index is
empty; when the index is non-empty it returns a nil error and a list whose
length is the number of indexed FQNs and which holds the registered entity of
every entry exactly once. -/
theorem C21_findAll (E : Type) {FQN RE : Type} (r : registrar FQN RE)
    (visit : List (Sigma (fun _ : FQN => RE))) (hvisit : visit.Perm r.idx.entries) :
    ((registrar.FindAll E r visit).2 ≠ none ↔ r.idx.entries = []) ∧
      ((registrar.FindAll E r visit).2 ≠ none → (registrar.FindAll E r visit).1 = none) ∧
      (r.idx.entries ≠ [] →
        (registrar.FindAll E r visit).2 = none ∧
          ∃ res, (registrar.FindAll E r visit).1 = some res ∧ res.length = r.idx.keys.length ∧
            res.Perm (r.idx.entries.map (fun entry => entry.2))) := by
  have hfold := foldl_append_values visit []
  simp only [List.nil_append] at hfold
  have hlen : visit.length = r.idx.entries.length := hvisit.length_eq
  have hkeys : r.idx.keys.length = r.idx.entries.length := by
    simp [AList.keys, List.keys]
  unfold registrar.FindAll
  rw [hfold]
  by_cases hempty : r.idx.entries = []
  · have hv : visit = [] := by
      rw [hempty] at hvisit
      exact hvisit.eq_nil
    subst hv
    simp [hempty]
  · have hvne : visit ≠ [] := by
      intro hv
      rw [hv] at hvisit
      exact hempty hvisit.symm.eq_nil
    have hl : ¬ ((visit.map (fun entry => entry.2)).length = 0) := by
      simpa using hvne
    simp only [if_neg hl, ne_eq, not_true_eq_false, hempty, false_iff, not_false_eq_true,
      forall_true_left, true_and, IsEmpty.forall_iff]
    refine ⟨visit.map (fun entry => entry.2), rfl, ?_, hvisit.map _⟩
    simp [hlen, hkeys]

/-- C21 on the example registrar, its two entries walked in reverse order. -/
theorem C21_findAll_witness :
    exampleRegistrar.idx.entries.reverse.Perm exampleRegistrar.idx.entries ∧
      exampleRegistrar.idx.entries ≠ [] ∧
      (registrar.FindAll String exampleRegistrar exampleRegistrar.idx.entries.reverse).2 = none ∧
      ∃ res, (registrar.FindAll String exampleRegistrar
          exampleRegistrar.idx.entries.reverse).1 = some res ∧
        res.length = exampleRegistrar.idx.keys.length ∧
        res.Perm (exampleRegistrar.idx.entries.map (fun entry => entry.2)) :=
  ⟨List.reverse_perm _, by decide,
    (C21_findAll String exampleRegistrar exampleRegistrar.idx.entries.reverse
      (List.reverse_perm _)).2.2 (by decide)⟩

/-- C22: for every registrar and every entity whose structural name is `n`:
if the index holds an entry under the FQN `baseFQN.Child(n)`, `Find` returns
exactly that registered entity with a nil error; otherwise it returns no
entity and an error whose message names `n`.  `Find` leaves the registrar as
it was, so repeating the lookup gives the same result. -/
theorem C22_find {FQN T RE E : Type} [DecidableEq FQN] (pkg : DosaPkg FQN T RE E)
    (r : registrar FQN RE) (n : String) :
    (∀ re, r.idx.lookup (pkg.Child r.baseFQN n).1 = some re →
        registrar.Find pkg r n = (r, some re, none)) ∧
      (r.idx.lookup (pkg.Child r.baseFQN n).1 = none →
        registrar.Find pkg r n =
          (r, none,
            some (RegistryError.message ("failed to find registration for entity " ++ n)))) ∧
      (registrar.Find pkg r n).1 = r ∧
      registrar.Find pkg (registrar.Find pkg r n).1 n = registrar.Find pkg r n := by
  unfold registrar.Find
  cases h : r.idx.lookup (pkg.Child r.baseFQN n).1 with
  | none => simp [h]
  | some re => simp [h]

/-- C22 on the example registrar: `Order` is found, `Ghost` is not. -/
theorem C22_find_witness :
    exampleRegistrar.idx.lookup ["billing", "Order"] = some ("acct", "billing", ⟨"Order", 1⟩) ∧
      registrar.Find (exampleDosa foundWithDuplicate) exampleRegistrar "Order" =
        (exampleRegistrar, some ("acct", "billing", ⟨"Order", 1⟩), none) ∧
      exampleRegistrar.idx.lookup ["billing", "Ghost"] = none ∧
      registrar.Find (exampleDosa foundWithDuplicate) exampleRegistrar "Ghost" =
        (exampleRegistrar, none,
          some (RegistryError.message ("failed to find registration for entity " ++ "Ghost"))) :=
  ⟨rfl,
    (C22_find (exampleDosa foundWithDuplicate) exampleRegistrar "Order").1 _ rfl,
    rfl,
    (C22_find (exampleDosa foundWithDuplicate) exampleRegistrar "Ghost").2.1 rfl⟩

/-- The index that `NewRegistrar` builds, begun with the map `m`: an FQN is
bound to the registered entity of the last definition with that FQN, or as in
`m` when there is none. -/
theorem foldl_insert_lookup {FQN T RE E : Type} [DecidableEq FQN] (pkg : DosaPkg FQN T RE E)
    (scope namePrefix : String) (base k : FQN) (eds : List T) (m : AList (fun _ : FQN => RE)) :
    (eds.foldl
        (fun idx ed =>
          idx.insert (pkg.Child base (pkg.StructName ed)).1
            (pkg.NewRegisteredEntity scope namePrefix ed)) m).lookup k =
      match lastFor pkg base k eds with
      | some ed => some (pkg.NewRegisteredEntity scope namePrefix ed)
      | none => m.lookup k := by
  induction eds generalizing m with
  | nil => simp [lastFor]
  | cons ed rest ih =>
    simp only [List.foldl_cons, lastFor]
    rw [ih]
    cases hlast : lastFor pkg base k rest with
    | some later => rfl
    | none =>
      by_cases hk : (pkg.Child base (pkg.StructName ed)).1 = k
      · subst hk
        simp [AList.lookup_insert]
      · have hk2 : k ≠ (pkg.Child base (pkg.StructName ed)).1 := fun h => hk h.symm
        simp [hk, AList.lookup_insert_ne hk2]

theorem lastFor_isSome {FQN T RE E : Type} [DecidableEq FQN] (pkg : DosaPkg FQN T RE E)
    (base k : FQN) (eds : List T) :
    (lastFor pkg base k eds).isSome = true ↔
      ∃ ed ∈ eds, (pkg.Child base (pkg.StructName ed)).1 = k := by
  induction eds with
  | nil => simp [lastFor]
  | cons ed rest ih =>
    simp only [lastFor, List.mem_cons, exists_eq_or_imp]
    cases hlast : lastFor pkg base k rest with
    | some later =>
      rw [hlast] at ih
      simp only [Option.isSome_some, true_iff] at ih
      simp [ih]
    | none =>
      rw [hlast] at ih
      simp only [Option.isSome_none, Bool.false_eq_true, false_iff] at ih
      by_cases hk : (pkg.Child base (pkg.StructName ed)).1 = k
      · simp [hk]
      · simp [hk, ih]

/-- The last definition with an FQN, when no definition after `ed` has the
FQN of `ed`. -/
theorem lastFor_append_cons {FQN T RE E : Type} [DecidableEq FQN] (pkg : DosaPkg FQN T RE E)
    (base : FQN) (pre post : List T) (ed : T)
    (hpost : ∀ d ∈ post, (pkg.Child base (pkg.StructName d)).1 ≠
      (pkg.Child base (pkg.StructName ed)).1) :
    lastFor pkg base (pkg.Child base (pkg.StructName ed)).1 (pre ++ ed :: post) = some ed := by
  have hnone : lastFor pkg base (pkg.Child base (pkg.StructName ed)).1 post = none := by
    cases h : lastFor pkg base (pkg.Child base (pkg.StructName ed)).1 post with
    | none => rfl
    | some later =>
      exfalso
      have hs : (lastFor pkg base (pkg.Child base (pkg.StructName ed)).1 post).isSome = true := by
        rw [h]; rfl
      obtain ⟨d, hd, he⟩ := (lastFor_isSome pkg base _ post).1 hs
      exact hpost d hd he
  induction pre with
  | nil => simp [lastFor, hnone]
  | cons p rest ih => simp [lastFor, ih]

/-- The keys of the index that `NewRegistrar` builds are the child FQNs of the
structural names of the definitions. -/
theorem foldl_insert_mem_keys {FQN T RE E : Type} [DecidableEq FQN] (pkg : DosaPkg FQN T RE E)
    (scope namePrefix : String) (base k : FQN) (eds : List T) :
    k ∈ (eds.foldl
        (fun idx ed =>
          idx.insert (pkg.Child base (pkg.StructName ed)).1
            (pkg.NewRegisteredEntity scope namePrefix ed))
        (∅ : AList (fun _ : FQN => RE))).keys ↔
      ∃ ed ∈ eds, (pkg.Child base (pkg.StructName ed)).1 = k := by
  rw [← AList.mem_keys, ← AList.lookup_isSome, foldl_insert_lookup, ← lastFor_isSome]
  cases lastFor pkg base k eds <;> simp

/-- When distinct structural names have distinct child FQNs, the index has as
many entries as there are distinct structural names. -/
theorem foldl_insert_keys_length {FQN T RE E : Type} [DecidableEq FQN]
    (pkg : DosaPkg FQN T RE E) (scope namePrefix : String) (base : FQN) (eds : List T)
    (hinj : Function.Injective (fun n => (pkg.Child base n).1)) :
    (eds.foldl
        (fun idx ed =>
          idx.insert (pkg.Child base (pkg.StructName ed)).1
            (pkg.NewRegisteredEntity scope namePrefix ed))
        (∅ : AList (fun _ : FQN => RE))).keys.length =
      ((eds.map pkg.StructName).dedup).length := by
  rw [← List.toFinset_card_of_nodup (AList.keys_nodup _), ← List.card_toFinset,
    ← Finset.card_image_of_injective _ hinj]
  congr 1
  ext k
  simp only [List.mem_toFinset, Finset.mem_image, List.mem_map]
  rw [foldl_insert_mem_keys]
  constructor
  · rintro ⟨ed, hed, hk⟩
    exact ⟨pkg.StructName ed, ⟨ed, hed, rfl⟩, hk⟩
  · rintro ⟨n, ⟨ed, hed, hn⟩, hk⟩
    exact ⟨ed, hed, by rw [hn]; exact hk⟩

/-- The index has as many entries as the definitions have distinct child
FQNs. -/
theorem foldl_insert_keys_length_fqn {FQN T RE E : Type} [DecidableEq FQN]
    (pkg : DosaPkg FQN T RE E) (scope namePrefix : String) (base : FQN) (eds : List T) :
    (eds.foldl
        (fun idx ed =>
          idx.insert (pkg.Child base (pkg.StructName ed)).1
            (pkg.NewRegisteredEntity scope namePrefix ed))
        (∅ : AList (fun _ : FQN => RE))).keys.length =
      ((eds.map (fun ed => (pkg.Child base (pkg.StructName ed)).1)).dedup).length := by
  rw [← List.toFinset_card_of_nodup (AList.keys_nodup _), ← List.card_toFinset]
  congr 1
  ext k
  simp only [List.mem_toFinset, List.mem_map]
  rw [foldl_insert_mem_keys]

/-- The index has as many entries as there are distinct structural names
exactly when distinct structural names among the definitions have distinct
child FQNs. -/
theorem foldl_insert_keys_length_iff {FQN T RE E : Type} [DecidableEq FQN]
    (pkg : DosaPkg FQN T RE E) (scope namePrefix : String) (base : FQN) (eds : List T) :
    (eds.foldl
        (fun idx ed =>
          idx.insert (pkg.Child base (pkg.StructName ed)).1
            (pkg.NewRegisteredEntity scope namePrefix ed))
        (∅ : AList (fun _ : FQN => RE))).keys.length =
        ((eds.map pkg.StructName).dedup).length ↔
      ∀ d1 ∈ eds, ∀ d2 ∈ eds,
        (pkg.Child base (pkg.StructName d1)).1 = (pkg.Child base (pkg.StructName d2)).1 →
        pkg.StructName d1 = pkg.StructName d2 := by
  have himg : (eds.foldl
        (fun idx ed =>
          idx.insert (pkg.Child base (pkg.StructName ed)).1
            (pkg.NewRegisteredEntity scope namePrefix ed))
        (∅ : AList (fun _ : FQN => RE))).keys.toFinset =
      ((eds.map pkg.StructName).toFinset).image (fun n => (pkg.Child base n).1) := by
    ext k
    simp only [List.mem_toFinset, Finset.mem_image, List.mem_map]
    rw [foldl_insert_mem_keys]
    constructor
    · rintro ⟨ed, hed, hk⟩
      exact ⟨pkg.StructName ed, ⟨ed, hed, rfl⟩, hk⟩
    · rintro ⟨n, ⟨ed, hed, hn⟩, hk⟩
      exact ⟨ed, hed, by rw [hn]; exact hk⟩
  rw [← List.toFinset_card_of_nodup (AList.keys_nodup _), ← List.card_toFinset, himg,
    Finset.card_image_iff]
  constructor
  · intro hinj d1 h1 d2 h2 he
    exact hinj (by simpa using ⟨d1, h1, rfl⟩) (by simpa using ⟨d2, h2, rfl⟩) he
  · intro h a ha b hb he
    simp only [List.coe_toFinset, List.mem_map, Set.mem_setOf_eq] at ha hb
    obtain ⟨d1, h1, rfl⟩ := ha
    obtain ⟨d2, h2, rfl⟩ := hb
    exact h d1 h1 d2 h2 he

/-- C23: once the name prefix has been converted, `NewRegistrar` decides on
the discovery result (definitions, warnings, error): with a non-empty warning
list it returns no registrar and the aggregated error of the warnings, also
when the error is non-nil; with no warnings and a non-nil error it returns no
registrar and exactly that error; it returns a registrar only with no
warnings and no error. -/
theorem C23_newRegistrar_errors {FQN T RE E : Type} [DecidableEq FQN]
    (pkg : DosaPkg FQN T RE E) (cfg : Config) (base : FQN)
    (hfqn : pkg.ToFQN cfg.NamePrefix = (base, none)) (eds : List T) (warns : List E)
    (err : Option E) (hfind : pkg.FindEntities cfg.EntityPaths cfg.Excludes = (eds, warns, err)) :
    (warns ≠ [] → NewRegistrar pkg cfg = (none, some (RegistryError.entityErrors warns))) ∧
      (warns = [] → ∀ e, err = some e →
        NewRegistrar pkg cfg = (none, some (RegistryError.passed e))) ∧
      ((NewRegistrar pkg cfg).1.isSome = true ↔ warns = [] ∧ err = none) := by
  unfold NewRegistrar
  rw [hfqn, hfind]
  simp only
  cases warns with
  | cons w ws => simp
  | nil =>
    cases err with
    | none => simp
    | some e => simp

/-- C23 on a discovery result with a warning and an error: the aggregated
error of the warnings is returned. -/
theorem C23_newRegistrar_errors_witness :
    (exampleDosa foundWithWarning).ToFQN exampleConfig.NamePrefix = (["billing"], none) ∧
      (exampleDosa foundWithWarning).FindEntities exampleConfig.EntityPaths
          exampleConfig.Excludes =
        ([⟨"Order", 1⟩], ["invalid annotation"], some "parse error") ∧
      NewRegistrar (exampleDosa foundWithWarning) exampleConfig =
        (none, some (RegistryError.entityErrors ["invalid annotation"])) :=
  ⟨rfl, rfl,
    (C23_newRegistrar_errors (exampleDosa foundWithWarning) exampleConfig ["billing"] rfl
      [⟨"Order", 1⟩] ["invalid annotation"] (some "parse error") rfl).1 (by simp)⟩

/-- C24 as stated fails: with a `Child` that normalises the structural name
to lower case, a discovery that yields the two distinct structural names
`Order` and `order` makes `NewRegistrar` succeed with an index of one entry,
built from the later definition: one entry for two distinct structural
names. -/
theorem C24_counterexample :
    (normalizingDosa foundWithCaseVariants).FindEntities exampleConfig.EntityPaths
        exampleConfig.Excludes = ([⟨"Order", 1⟩, ⟨"order", 2⟩], [], none) ∧
      (([⟨"Order", 1⟩, ⟨"order", 2⟩] : List ExampleTable).map
        (normalizingDosa foundWithCaseVariants).StructName).dedup.length = 2 ∧
      (NewRegistrar (normalizingDosa foundWithCaseVariants) exampleConfig).2 = none ∧
      (NewRegistrar (normalizingDosa foundWithCaseVariants) exampleConfig).1.map
          (fun r => (r.idx.keys, r.idx.lookup ["billing", "order"])) =
        some ([["billing", "order"]], some ("acct", "billing", ⟨"order", 2⟩)) ∧
      ¬ ∃ r, NewRegistrar (normalizingDosa foundWithCaseVariants) exampleConfig =
          (some r, none) ∧
        r.idx.keys.length =
          (([⟨"Order", 1⟩, ⟨"order", 2⟩] : List ExampleTable).map
            (normalizingDosa foundWithCaseVariants).StructName).dedup.length := by
  have hkeys : (NewRegistrar (normalizingDosa foundWithCaseVariants) exampleConfig).1.map
      (fun r => (r.idx.keys, r.idx.lookup ["billing", "order"])) =
      some ([["billing", "order"]], some ("acct", "billing", ⟨"order", 2⟩)) := by decide
  refine ⟨rfl, by decide, rfl, hkeys, ?_⟩
  rintro ⟨r, hr, hlen⟩
  rw [hr] at hkeys
  simp only [Option.map_some', Option.some.injEq, Prod.mk.injEq] at hkeys
  rw [hkeys.1] at hlen
  revert hlen
  decide

/-- C24, amended: when the discovery yields definitions without warnings or
error, `NewRegistrar` succeeds, also with two definitions of one structural
name: the index then holds under their FQN the entity built from the later
definition.  The registrar has the scope and the name prefix of the
configuration.  The index has exactly one entry per distinct FQN
`baseFQN.Child(StructName)` of the definitions, under each FQN the entity
built from the last definition with that FQN; that is one entry per distinct
structural name exactly when distinct structural names among the definitions
have distinct FQNs, as they have when `Child` is injective in the name. -/
theorem C24_newRegistrar_index {FQN T RE E : Type} [DecidableEq FQN]
    (pkg : DosaPkg FQN T RE E) (cfg : Config) (base : FQN)
    (hfqn : pkg.ToFQN cfg.NamePrefix = (base, none)) (eds : List T)
    (hfind : pkg.FindEntities cfg.EntityPaths cfg.Excludes = (eds, [], none)) :
    ∃ r, NewRegistrar pkg cfg = (some r, none) ∧
      r.Scope = cfg.Scope ∧ r.NamePrefix = cfg.NamePrefix ∧ r.baseFQN = base ∧
      (∀ pre d1 mid d2 post, eds = pre ++ d1 :: (mid ++ d2 :: post) →
        pkg.StructName d1 = pkg.StructName d2 →
        (∀ d ∈ post, (pkg.Child base (pkg.StructName d)).1 ≠
          (pkg.Child base (pkg.StructName d2)).1) →
        r.idx.lookup (pkg.Child base (pkg.StructName d1)).1 =
          some (pkg.NewRegisteredEntity cfg.Scope cfg.NamePrefix d2)) ∧
      (∀ k, k ∈ r.idx.keys ↔ ∃ ed ∈ eds, (pkg.Child base (pkg.StructName ed)).1 = k) ∧
      r.idx.keys.Nodup ∧
      (Function.Injective (fun n => (pkg.Child base n).1) →
        r.idx.keys.length = ((eds.map pkg.StructName).dedup).length) ∧
      r.idx.keys.length =
        ((eds.map (fun ed => (pkg.Child base (pkg.StructName ed)).1)).dedup).length ∧
      (∀ k, r.idx.lookup k =
        (lastFor pkg base k eds).map (pkg.NewRegisteredEntity cfg.Scope cfg.NamePrefix)) ∧
      (r.idx.keys.length = ((eds.map pkg.StructName).dedup).length ↔
        ∀ d1 ∈ eds, ∀ d2 ∈ eds,
          (pkg.Child base (pkg.StructName d1)).1 = (pkg.Child base (pkg.StructName d2)).1 →
          pkg.StructName d1 = pkg.StructName d2) := by
  refine ⟨{ scope := cfg.Scope
            namePrefix := cfg.NamePrefix
            baseFQN := base
            idx := eds.foldl
              (fun idx ed =>
                idx.insert (pkg.Child base (pkg.StructName ed)).1
                  (pkg.NewRegisteredEntity cfg.Scope cfg.NamePrefix ed))
              ∅ }, ?_, rfl, rfl, rfl, ?_, ?_, AList.keys_nodup _, ?_, ?_, ?_, ?_⟩
  · unfold NewRegistrar
    rw [hfqn, hfind]
    simp only [List.length_nil, gt_iff_lt, lt_self_iff_false, if_false]
  · intro pre d1 mid d2 post heds hname hpost
    simp only
    rw [foldl_insert_lookup, hname, heds]
    have h := lastFor_append_cons pkg base (pre ++ d1 :: mid) post d2 hpost
    simp only [List.append_assoc, List.cons_append] at h
    rw [h]
  · intro k
    exact foldl_insert_mem_keys pkg cfg.Scope cfg.NamePrefix base k eds
  · intro hinj
    exact foldl_insert_keys_length pkg cfg.Scope cfg.NamePrefix base eds hinj
  · exact foldl_insert_keys_length_fqn pkg cfg.Scope cfg.NamePrefix base eds
  · intro k
    simp only
    rw [foldl_insert_lookup]
    cases lastFor pkg base k eds <;> simp
  · exact foldl_insert_keys_length_iff pkg cfg.Scope cfg.NamePrefix base eds

/-- C24, amended, on a discovery result with two definitions named `Order`:
the index has two entries, one per distinct FQN, and `Order` is bound to the
later definition. -/
theorem C24_newRegistrar_index_witness :
    (exampleDosa foundWithDuplicate).ToFQN exampleConfig.NamePrefix = (["billing"], none) ∧
      (exampleDosa foundWithDuplicate).FindEntities exampleConfig.EntityPaths
          exampleConfig.Excludes =
        ([⟨"Order", 1⟩, ⟨"User", 2⟩, ⟨"Order", 3⟩], [], none) ∧
      ∃ r, NewRegistrar (exampleDosa foundWithDuplicate) exampleConfig = (some r, none) ∧
        r.idx.lookup ["billing", "Order"] = some ("acct", "billing", ⟨"Order", 3⟩) ∧
        r.idx.keys.length = 2 := by
  obtain ⟨r, h1, _, _, _, hdup, _, _, _, hcount, _, _⟩ :=
    C24_newRegistrar_index (exampleDosa foundWithDuplicate) exampleConfig ["billing"] rfl
      [⟨"Order", 1⟩, ⟨"User", 2⟩, ⟨"Order", 3⟩] rfl
  refine ⟨rfl, rfl, r, h1, ?_, ?_⟩
  · exact hdup [] ⟨"Order", 1⟩ [⟨"User", 2⟩] ⟨"Order", 3⟩ [] rfl rfl (by simp)
  · rw [hcount]
    decide

/-! ## NullInt64: JSON documents that are not numbers -/

theorem checkValid_eq_acceptsFrom (data : List Nat) :
    checkValid data = acceptsFrom scanner.reset data := rfl

theorem acceptsFrom_cons (s : scanner) (c : Nat) (cs : List Nat) :
    acceptsFrom s (c :: cs) =
      if (s.call c).2 = Op.scanError then false else acceptsFrom (s.call c).1 cs := by
  simp only [acceptsFrom, checkValidLoop]
  split_ifs <;> rfl

/-- Once the scanner has recorded an error, nothing is accepted. -/
theorem acceptsFrom_error (et : Bool) (ps : List ParseState) (data : List Nat) :
    acceptsFrom ⟨Step.stateError, et, ps, true⟩ data = false := by
  cases data with
  | nil => simp [acceptsFrom, checkValidLoop, scanner.eof]
  | cons c cs => simp [acceptsFrom_cons, scanner.call, stateError]

/-- After the top-level value only white space is accepted. -/
theorem acceptsFrom_end_all_space (data : List Nat) (st : Step) (et : Bool)
    (hst : st = Step.stateEndValue ∨ st = Step.stateEndTop)
    (h : acceptsFrom ⟨st, et, [], false⟩ data = true) : data.all isSpace = true := by
  induction data generalizing st et with
  | nil => rfl
  | cons c cs ih =>
    rw [acceptsFrom_cons] at h
    by_cases hsp : isSpace c = true
    · simp only [List.all_cons, hsp, Bool.true_and]
      rcases hst with hst | hst <;> subst hst
      · simp only [scanner.call, stateEndValue, stateEndTop, hsp, Bool.not_true,
          Bool.false_eq_true, if_false, reduceCtorEq] at h
        exact ih Step.stateEndTop true (Or.inr rfl) h
      · simp only [scanner.call, stateEndTop, hsp, Bool.not_true,
          Bool.false_eq_true, if_false, reduceCtorEq] at h
        exact ih Step.stateEndTop et (Or.inr rfl) h
    · exfalso
      have hsp2 : isSpace c = false := by simpa using hsp
      rcases hst with hst | hst <;> subst hst
      · simp [scanner.call, stateEndValue, stateEndTop, hsp2, scanner.error,
          acceptsFrom_error] at h
      · simp [scanner.call, stateEndTop, hsp2, scanner.error, acceptsFrom_error] at h

theorem numberTokensAux_outside_cur (data cur : List Nat) :
    numberTokensAux data LexMode.outside cur = numberTokensAux data LexMode.outside [] := by
  cases data <;> simp [numberTokensAux]

/-- White space outside a string holds no number. -/
theorem numberTokensAux_spaces (ws rest : List Nat) (h : ws.all isSpace = true) :
    numberTokensAux (ws ++ rest) LexMode.outside [] = numberTokensAux rest LexMode.outside [] := by
  induction ws with
  | nil => rfl
  | cons c cs ih =>
    simp only [List.all_cons, Bool.and_eq_true] at h
    have hc : c = 32 ∨ c = 9 ∨ c = 13 ∨ c = 10 := by
      have := h.1
      simp only [isSpace, Bool.and_eq_true, Bool.or_eq_true, decide_eq_true_eq] at this
      omega
    have h34 : c ≠ 34 := by omega
    have hnum : ¬ (c = 45 ∨ (48 ≤ c ∧ c ≤ 57)) := by omega
    simp only [List.cons_append, numberTokensAux, h34, hnum, if_false]
    exact ih h.2

/-- The scanner skips white space before the value. -/
theorem acceptsFrom_spaces (ws rest : List Nat) (h : ws.all isSpace = true) :
    acceptsFrom scanner.reset (ws ++ rest) = acceptsFrom scanner.reset rest := by
  induction ws with
  | nil => rfl
  | cons c cs ih =>
    simp only [List.all_cons, Bool.and_eq_true] at h
    rw [List.cons_append, acceptsFrom_cons]
    simp only [scanner.call, scanner.reset, stateBeginValue, h.1, if_true, reduceCtorEq, if_false]
    exact ih h.2

/-- After the top-level value the decoder meets no number. -/
theorem numberTokensAux_end (data : List Nat) (st : Step) (et : Bool)
    (hst : st = Step.stateEndValue ∨ st = Step.stateEndTop)
    (h : acceptsFrom ⟨st, et, [], false⟩ data = true) :
    numberTokensAux data LexMode.outside [] = [] := by
  have hsp := acceptsFrom_end_all_space data st et hst h
  have := numberTokensAux_spaces data [] hsp
  simpa [numberTokensAux] using this

/-- Inside a string literal that the scanner accepts, the decoder meets no
number: the walk of the decoder stays in step with the scanner up to the
closing quote, and only white space follows. -/
theorem numberTokensAux_string (body : List Nat) (st : Step) (mode : LexMode)
    (hrel : (st = Step.stateInString ∧ mode = LexMode.inString) ∨
      (st = Step.stateInStringEsc ∧ mode = LexMode.inStringEsc) ∨
      ((st = Step.stateInStringEscU ∨ st = Step.stateInStringEscU1 ∨
        st = Step.stateInStringEscU12 ∨ st = Step.stateInStringEscU123) ∧
        mode = LexMode.inString))
    (h : acceptsFrom ⟨st, false, [], false⟩ body = true) (cur : List Nat) :
    numberTokensAux body mode cur = [] := by
  induction body generalizing st mode cur with
  | nil =>
    exfalso
    rcases hrel with ⟨h1, _⟩ | ⟨h1, _⟩ | ⟨h1 | h1 | h1 | h1, _⟩ <;> subst h1 <;>
      simp [acceptsFrom, checkValidLoop, scanner.eof, scanner.call, stateInString,
        stateInStringEsc, stateInStringEscU, stateInStringEscU1, stateInStringEscU12,
        stateInStringEscU123, isHex, scanner.error] at h
  | cons c cs ih =>
    rw [acceptsFrom_cons] at h
    rcases hrel with ⟨h1, h2⟩ | ⟨h1, h2⟩ | ⟨h1, h2⟩
    · subst h1 h2
      by_cases h34 : c = 34
      · subst h34
        simp only [scanner.call, stateInString, if_true, reduceCtorEq, if_false] at h
        simp only [numberTokensAux, if_true]
        have hne : (34 : Nat) ≠ 92 := by decide
        simp only [hne, if_false]
        exact numberTokensAux_end cs Step.stateEndValue false (Or.inl rfl) h
      · by_cases h92 : c = 92
        · subst h92
          simp only [scanner.call, stateInString, if_true, reduceCtorEq, if_false] at h
          have hne : (92 : Nat) ≠ 34 := by decide
          simp only [hne, if_false] at h
          simp only [numberTokensAux, if_true]
          exact ih Step.stateInStringEsc LexMode.inStringEsc (Or.inr (Or.inl ⟨rfl, rfl⟩)) h []
        · by_cases h32 : c < 32
          · simp [scanner.call, stateInString, h34, h92, h32, scanner.error] at h
          · simp only [scanner.call, stateInString, h34, h92, h32, if_false, reduceCtorEq] at h
            simp only [numberTokensAux, h34, h92, if_false]
            exact ih Step.stateInString LexMode.inString (Or.inl ⟨rfl, rfl⟩) h []
    · subst h1 h2
      simp only [numberTokensAux]
      by_cases hesc : c = 98 ∨ c = 102 ∨ c = 110 ∨ c = 114 ∨ c = 116 ∨ c = 92 ∨ c = 47 ∨ c = 34
      · simp only [scanner.call, stateInStringEsc, if_pos hesc, reduceCtorEq, if_false] at h
        exact ih Step.stateInString LexMode.inString (Or.inl ⟨rfl, rfl⟩) h []
      · by_cases hu : c = 117
        · simp only [scanner.call, stateInStringEsc, if_neg hesc, if_pos hu, reduceCtorEq,
            if_false] at h
          exact ih Step.stateInStringEscU LexMode.inString
            (Or.inr (Or.inr ⟨Or.inl rfl, rfl⟩)) h []
        · simp [scanner.call, stateInStringEsc, hesc, hu, scanner.error] at h
    · subst h2
      by_cases hhex : isHex c = true
      · have hc : (48 ≤ c ∧ c ≤ 57) ∨ (97 ≤ c ∧ c ≤ 102) ∨ (65 ≤ c ∧ c ≤ 70) := by
          simp only [isHex, Bool.or_eq_true, Bool.and_eq_true, decide_eq_true_eq] at hhex
          omega
        have h34 : c ≠ 34 := by omega
        have h92 : c ≠ 92 := by omega
        simp only [numberTokensAux, h34, h92, if_false]
        rcases h1 with h1 | h1 | h1 | h1 <;> subst h1
        · simp only [scanner.call, stateInStringEscU, hhex, if_true, reduceCtorEq, if_false] at h
          exact ih Step.stateInStringEscU1 LexMode.inString
            (Or.inr (Or.inr ⟨Or.inr (Or.inl rfl), rfl⟩)) h []
        · simp only [scanner.call, stateInStringEscU1, hhex, if_true, reduceCtorEq, if_false] at h
          exact ih Step.stateInStringEscU12 LexMode.inString
            (Or.inr (Or.inr ⟨Or.inr (Or.inr (Or.inl rfl)), rfl⟩)) h []
        · simp only [scanner.call, stateInStringEscU12, hhex, if_true, reduceCtorEq, if_false] at h
          exact ih Step.stateInStringEscU123 LexMode.inString
            (Or.inr (Or.inr ⟨Or.inr (Or.inr (Or.inr rfl)), rfl⟩)) h []
        · simp only [scanner.call, stateInStringEscU123, hhex, if_true, reduceCtorEq,
            if_false] at h
          exact ih Step.stateInString LexMode.inString (Or.inl ⟨rfl, rfl⟩) h []
      · exfalso
        have hhex2 : isHex c = false := by simpa using hhex
        rcases h1 with h1 | h1 | h1 | h1 <;> subst h1 <;>
          simp [scanner.call, stateInStringEscU, stateInStringEscU1, stateInStringEscU12,
            stateInStringEscU123, hhex2, scanner.error] at h

/-- Inside the literals `true` and `false` that the scanner accepts, and
after them, the decoder meets no number. -/
theorem numberTokensAux_bool (body : List Nat) (st : Step)
    (hst : st = Step.stateT ∨ st = Step.stateTr ∨ st = Step.stateTru ∨ st = Step.stateF ∨
      st = Step.stateFa ∨ st = Step.stateFal ∨ st = Step.stateFals)
    (h : acceptsFrom ⟨st, false, [], false⟩ body = true) :
    numberTokensAux body LexMode.outside [] = [] := by
  induction body generalizing st with
  | nil =>
    exfalso
    rcases hst with h1 | h1 | h1 | h1 | h1 | h1 | h1 <;> subst h1 <;>
      simp [acceptsFrom, checkValidLoop, scanner.eof, scanner.call, stateLit, scanner.error] at h
  | cons c cs ih =>
    rw [acceptsFrom_cons] at h
    have key : ∀ (want : Nat) (next : Step),
        (scanner.call ⟨st, false, [], false⟩ c) = stateLit want next ⟨st, false, [], false⟩ c →
        want ≠ 34 → ¬ (want = 45 ∨ (48 ≤ want ∧ want ≤ 57)) →
        (next = Step.stateEndValue ∨ next = Step.stateTr ∨ next = Step.stateTru ∨
          next = Step.stateFa ∨ next = Step.stateFal ∨ next = Step.stateFals) →
        numberTokensAux (c :: cs) LexMode.outside [] = [] := by
      intro want next hcall h34 hnum hnext
      rw [hcall] at h
      by_cases hc : c = want
      · subst hc
        simp only [stateLit, if_true, reduceCtorEq, if_false] at h
        simp only [numberTokensAux, h34, hnum, if_false]
        rcases hnext with hn | hn | hn | hn | hn | hn
        · subst hn
          exact numberTokensAux_end cs Step.stateEndValue false (Or.inl rfl) h
        · exact ih next (Or.inr (Or.inl hn)) h
        · exact ih next (Or.inr (Or.inr (Or.inl hn))) h
        · exact ih next (Or.inr (Or.inr (Or.inr (Or.inr (Or.inl hn))))) h
        · exact ih next (Or.inr (Or.inr (Or.inr (Or.inr (Or.inr (Or.inl hn)))))) h
        · exact ih next (Or.inr (Or.inr (Or.inr (Or.inr (Or.inr (Or.inr hn)))))) h
      · simp [stateLit, hc, scanner.error] at h
    rcases hst with h1 | h1 | h1 | h1 | h1 | h1 | h1 <;> subst h1
    · exact key 114 Step.stateTr rfl (by decide) (by decide) (by simp)
    · exact key 117 Step.stateTru rfl (by decide) (by decide) (by simp)
    · exact key 101 Step.stateEndValue rfl (by decide) (by decide) (by simp)
    · exact key 97 Step.stateFa rfl (by decide) (by decide) (by simp)
    · exact key 108 Step.stateFal rfl (by decide) (by decide) (by simp)
    · exact key 115 Step.stateFals rfl (by decide) (by decide) (by simp)
    · exact key 101 Step.stateEndValue rfl (by decide) (by decide) (by simp)

theorem takeWhile_all (p : Nat → Bool) (l : List Nat) : (l.takeWhile p).all p = true := by
  induction l with
  | nil => rfl
  | cons c cs ih =>
    by_cases hc : p c = true
    · simp [List.takeWhile, hc, ih]
    · have hc2 : p c = false := by simpa using hc
      simp [List.takeWhile, hc2]

/-- A valid document whose value is a string or a boolean holds no number
for the decoder. -/
theorem numberTokens_string_or_bool (data : List Nat) (hvalid : checkValid data = true)
    (hk : topKind data = some Kind.string ∨ topKind data = some Kind.bool) :
    numberTokens data = [] := by
  have hsplit : data = data.takeWhile isSpace ++ data.dropWhile isSpace :=
    (List.takeWhile_append_dropWhile isSpace data).symm
  have hws := takeWhile_all isSpace data
  rw [checkValid_eq_acceptsFrom, hsplit, acceptsFrom_spaces _ _ hws] at hvalid
  unfold numberTokens
  rw [hsplit, numberTokensAux_spaces _ _ hws]
  unfold topKind at hk
  cases hrest : data.dropWhile isSpace with
  | nil => rw [hrest] at hk; simp at hk
  | cons c rest =>
    rw [hrest] at hk hvalid
    simp only [Option.some.injEq] at hk
    rw [acceptsFrom_cons] at hvalid
    rcases hk with hk | hk
    · have hc : c = 34 := by
        unfold kindOfByte at hk
        split_ifs at hk
        assumption
      subst hc
      simp only [scanner.call, scanner.reset, stateBeginValue, isSpace] at hvalid
      simp only [numberTokensAux, if_true]
      exact numberTokensAux_string rest Step.stateInString LexMode.inString
        (Or.inl ⟨rfl, rfl⟩) (by simpa using hvalid) []
    · have hc : c = 116 ∨ c = 102 := by
        unfold kindOfByte at hk
        split_ifs at hk
        assumption
      have h34 : c ≠ 34 := by omega
      have hnum : ¬ (c = 45 ∨ (48 ≤ c ∧ c ≤ 57)) := by omega
      simp only [numberTokensAux, h34, hnum, if_false]
      rcases hc with hc | hc <;> subst hc
      · simp only [scanner.call, scanner.reset, stateBeginValue, isSpace] at hvalid
        exact numberTokensAux_bool rest Step.stateT (Or.inl rfl) (by simpa using hvalid)
      · simp only [scanner.call, scanner.reset, stateBeginValue, isSpace] at hvalid
        exact numberTokensAux_bool rest Step.stateF (Or.inr (Or.inr (Or.inr (Or.inl rfl))))
          (by simpa using hvalid)

/-- The method `UnmarshalJSON` on a valid document whose value is not a number
and not `null`: when `strconv.ParseFloat` rejects one of its number literals,
the receiver is returned untouched with the error of the probe; otherwise the
receiver is marked invalid and the error names the kind. -/
theorem UnmarshalJSON_wrong_kind (data : List Nat) (r : NullInt64)
    (hvalid : checkValid data = true)
    (hk : topKind data = some Kind.string ∨ topKind data = some Kind.bool ∨
      topKind data = some Kind.array ∨ topKind data = some Kind.object) :
    r.UnmarshalJSON data =
      if (numberTokens data).any parseFloatErr = true then (r, some Error.jsonUnmarshalType)
      else ({ Int64 := r.Int64, Valid := false }, some Error.wrongKind) := by
  unfold topKind at hk
  unfold NullInt64.UnmarshalJSON unmarshalInterface
  cases hrest : data.dropWhile isSpace with
  | nil => rw [hrest] at hk; simp at hk
  | cons c rest =>
    rw [hrest] at hk
    simp only [Option.some.injEq] at hk
    simp only [hvalid, Bool.not_true, Bool.false_eq_true, if_false]
    by_cases hov : (numberTokens data).any parseFloatErr = true
    · simp [hov]
    · simp only [hov, if_false]
      rcases hk with hk | hk | hk | hk <;> rw [hk] <;> simp

set_option maxRecDepth 100000 in
set_option exponentiation.threshold 2000 in
/-- C25 as stated fails: `[1e999]` is a well-formed JSON array, a value of the
wrong kind, whose number literal `strconv.ParseFloat` rejects; `UnmarshalJSON`
on a valid receiver returns the error of the `float64` probe and leaves the
receiver valid with its old value, it does not mark it invalid. -/
theorem C25_counterexample :
    checkValid documentHugeArray = true ∧ topKind documentHugeArray = some Kind.array ∧
      (NullInt64.mk 7 true).UnmarshalJSON documentHugeArray =
        (NullInt64.mk 7 true, some Error.jsonUnmarshalType) := by
  have hvalid : checkValid documentHugeArray = true := by decide
  have hkind : topKind documentHugeArray = some Kind.array := by decide
  have hov : (numberTokens documentHugeArray).any parseFloatErr = true := by decide
  refine ⟨hvalid, hkind, ?_⟩
  rw [UnmarshalJSON_wrong_kind documentHugeArray _ hvalid (Or.inr (Or.inr (Or.inl hkind))), hov]
  simp

/-- C25, amended: for every byte string that is not syntactically valid JSON,
`UnmarshalJSON` returns a non-nil error and leaves the receiver unchanged,
validity flag and value; for a well-formed string or boolean it returns an
error and marks the receiver invalid; for a well-formed array or object it
returns an error and marks the receiver invalid, unless `strconv.ParseFloat`
rejects one of the number literals of the value, when the probe fails and
the receiver is left unchanged.  In general, whenever the probe
`json.Unmarshal` into an `interface{}` fails, `UnmarshalJSON` returns its
error and leaves the receiver unchanged. -/
theorem C25_unmarshal_json_errors (data : List Nat) (r : NullInt64) :
    (checkValid data = false → r.UnmarshalJSON data = (r, some Error.jsonSyntax)) ∧
      (checkValid data = true →
        (topKind data = some Kind.string ∨ topKind data = some Kind.bool) →
        r.UnmarshalJSON data = ({ Int64 := r.Int64, Valid := false }, some Error.wrongKind)) ∧
      (checkValid data = true →
        (topKind data = some Kind.array ∨ topKind data = some Kind.object) →
        ((numberTokens data).any parseFloatErr = false →
          r.UnmarshalJSON data = ({ Int64 := r.Int64, Valid := false }, some Error.wrongKind)) ∧
        ((numberTokens data).any parseFloatErr = true →
          unmarshalInterface data = Except.error Error.jsonUnmarshalType ∧
            r.UnmarshalJSON data = (r, some Error.jsonUnmarshalType))) ∧
      (∀ e, unmarshalInterface data = Except.error e → r.UnmarshalJSON data = (r, some e)) := by
  refine ⟨?_, ?_, ?_, ?_⟩
  · intro hinvalid
    simp [NullInt64.UnmarshalJSON, unmarshalInterface, hinvalid]
  · intro hvalid hk
    have htok := numberTokens_string_or_bool data hvalid hk
    have hk4 : topKind data = some Kind.string ∨ topKind data = some Kind.bool ∨
        topKind data = some Kind.array ∨ topKind data = some Kind.object := by
      rcases hk with hk | hk
      · exact Or.inl hk
      · exact Or.inr (Or.inl hk)
    rw [UnmarshalJSON_wrong_kind data r hvalid hk4, htok]
    simp
  · intro hvalid hk
    have hk4 : topKind data = some Kind.string ∨ topKind data = some Kind.bool ∨
        topKind data = some Kind.array ∨ topKind data = some Kind.object := by
      rcases hk with hk | hk
      · exact Or.inr (Or.inr (Or.inl hk))
      · exact Or.inr (Or.inr (Or.inr hk))
    rw [UnmarshalJSON_wrong_kind data r hvalid hk4]
    constructor
    · intro hov
      simp [hov]
    · intro hov
      refine ⟨?_, by simp [hov]⟩
      unfold topKind at hk
      unfold unmarshalInterface
      cases hrest : data.dropWhile isSpace with
      | nil => rw [hrest] at hk; simp at hk
      | cons c rest => simp [hvalid, hov]
  · intro e he
    unfold NullInt64.UnmarshalJSON
    rw [he]

/-- C25, amended, at the invalid document `tru` and at the string `"42"`,
each with a receiver that was valid. -/
theorem C25_unmarshal_json_errors_witness :
    checkValid documentTruncated = false ∧
      (NullInt64.mk 7 true).UnmarshalJSON documentTruncated =
        (NullInt64.mk 7 true, some Error.jsonSyntax) ∧
      checkValid documentString = true ∧ topKind documentString = some Kind.string ∧
      (NullInt64.mk 7 true).UnmarshalJSON documentString =
        (NullInt64.mk 7 false, some Error.wrongKind) :=
  ⟨by decide,
    (C25_unmarshal_json_errors documentTruncated (NullInt64.mk 7 true)).1 (by decide),
    by decide, by decide,
    (C25_unmarshal_json_errors documentString (NullInt64.mk 7 true)).2.1 (by decide)
      (Or.inl (by decide))⟩

end Dosa
